import Mathlib

/-!
Orderly: classification and collision-free relocation of downloaded files

A shallow embedding of `orderly.c` and the properties of its parts: the extension
classifier (`classify_extension`), the unique destination resolver
(`make_unique_dest`), the relocation loop of `wmain` and the setup that precedes it.

Modelling conventions.

* A `wchar_t` is a UTF-16 code unit, represented by its numeric value. A wide
  string is the list of the code units that precede its terminating NUL; a
  possibly-NULL `const wchar_t *` is an `Option WStr`.
* The fixed-size buffers of the program (`wchar_t x[MAX_PATH]`, `wchar_t low[64]`)
  are modelled through the secure CRT functions that fill them:
  `wcsncpy_s` with `_TRUNCATE` keeps the first `size - 1` code units, and a
  `swprintf_s` (or counted `wcsncpy_s`) whose output does not fit invokes the
  invalid-parameter handler. The program installs no handler, so the process is
  terminated there; this is the result `none` of the functions below.
* The file system is reached through `GetFileAttributesW` and `MoveFileW` only.
  They are the fields of `Win32`, functions of an explicit file-system state.
* The counters `moved`, `skipped`, `errors` are C `int`s that start at 0 and are
  incremented at most once per directory entry; a directory listing is far
  shorter than `INT_MAX`, so they are modelled by natural numbers.
-/

namespace Orderly

/-! ## Wide strings -/

/-- The contents of a NUL-terminated wide string: its `wchar_t` code units. -/
abbrev WStr := List Nat

/-- The wide string literal `L"..."` (used with ASCII text only). -/
def L (s : String) : WStr := s.toList.map Char.toNat

/-- The constant `MAX_PATH` of `windows.h`. -/
def MAX_PATH : Nat := 260

/-- The function `towlower` in the "C" locale, the only locale the program runs in
(it never calls `setlocale`): `A`..`Z` are folded, every other code unit is kept. -/
def towlower (c : Nat) : Nat :=
  if 65 ≤ c ∧ c ≤ 90 then c + 32 else c

/-- `to_lower_w`: `for (; *s; ++s) *s = towlower(*s);` -/
def to_lower_w (s : WStr) : WStr := s.map towlower

/-- `wcslen`. -/
def wcslen (s : WStr) : Nat := s.length

/-- `wcscmp(a, b) == 0`. -/
def wcscmp_eq (a b : WStr) : Bool := a == b

/-- `wcsncpy_s(dst, size, src, _TRUNCATE)`: as much of `src` as fits in a buffer of
`size` code units together with the terminating NUL. It never fails. -/
def wcsncpy_s_truncate (size : Nat) (src : WStr) : WStr := src.take (size - 1)

/-- `wcsncpy_s(dst, size, src, count)` with an explicit count: the first `count` code
units of `src` (all of it when it is shorter); `none` when they do not fit in
`size` code units together with the terminating NUL. -/
def wcsncpy_s (size : Nat) (src : WStr) (count : Nat) : Option WStr :=
  if min count src.length < size then some (src.take count) else none

/-- `swprintf_s(out, size, fmt, ...)`, given the text the format expands to:
`none` when the text and its terminating NUL do not fit in `size` code units. -/
def swprintf_s (size : Nat) (text : WStr) : Option WStr :=
  if text.length < size then some text else none

/-- Index of the last occurrence of `c` in `s`, scanning from position `i`. -/
def wcsrchr_from (c : Nat) : WStr → Nat → Option Nat
  | [], _ => none
  | x :: xs, i =>
    match wcsrchr_from c xs (i + 1) with
    | some j => some j
    | none => if x = c then some i else none

/-- `wcsrchr(s, c)` for `c ≠ 0`: the offset of the last occurrence of `c` in `s`,
or `none` (the NULL pointer) when `c` does not occur. The pointer the C function
returns is `s + offset`, that is the string `s.drop offset`. -/
def wcsrchr (s : WStr) (c : Nat) : Option Nat := wcsrchr_from c s 0

/-- The code unit of a backslash. -/
def BACKSLASH : Nat := 92

/-- The code unit of a full stop. -/
def DOT : Nat := 46

/-! ## Extension classifier -/

/-- The array `images` of `classify_extension`. -/
def images : List WStr :=
  [L ".jpg", L ".jpeg", L ".png", L ".gif", L ".bmp", L ".webp", L ".heic"]

/-- The array `videos` of `classify_extension`. -/
def videos : List WStr :=
  [L ".mp4", L ".mkv", L ".mov", L ".avi", L ".webm", L ".flv"]

/-- The array `docs` of `classify_extension`. -/
def docs : List WStr :=
  [L ".pdf", L ".doc", L ".docx", L ".xls", L ".xlsx", L ".ppt", L ".pptx", L ".txt", L ".odt"]

/-- `for (int i=0; arr[i]; ++i) if (wcscmp(low, arr[i])==0) return ...`: whether the
scan of the NULL-terminated array finds `low`. -/
def scan (low : WStr) (arr : List WStr) : Bool := arr.any (fun e => wcscmp_eq low e)

/-- `classify_extension`: the category name (`L"Pictures"`, `L"Videos"`,
`L"Documents"`) of an extension, or `none` (NULL) when it is unknown. -/
def classify_extension (ext : Option WStr) : Option WStr :=
  match ext with
  | none => none
  | some ext =>
    if wcslen ext < 2 then none
    else
      let low := to_lower_w (wcsncpy_s_truncate 64 ext)
      if scan low images then some (L "Pictures")
      else if scan low videos then some (L "Videos")
      else if scan low docs then some (L "Documents")
      else none

/-- The extension table as the specification lists it: each lowercase extension
with the name of its category. -/
def extension_table : List (WStr × WStr) :=
  [ (L ".jpg", L "Pictures"), (L ".jpeg", L "Pictures"), (L ".png", L "Pictures"),
    (L ".gif", L "Pictures"), (L ".bmp", L "Pictures"), (L ".webp", L "Pictures"),
    (L ".heic", L "Pictures"),
    (L ".mp4", L "Videos"), (L ".mkv", L "Videos"), (L ".mov", L "Videos"),
    (L ".avi", L "Videos"), (L ".webm", L "Videos"), (L ".flv", L "Videos"),
    (L ".pdf", L "Documents"), (L ".doc", L "Documents"), (L ".docx", L "Documents"),
    (L ".xls", L "Documents"), (L ".xlsx", L "Documents"), (L ".ppt", L "Documents"),
    (L ".pptx", L "Documents"), (L ".txt", L "Documents"), (L ".odt", L "Documents") ]

/-- Whether `c` is an ASCII letter. -/
def is_ascii_letter (c : Nat) : Bool :=
  (65 ≤ c && c ≤ 90) || (97 ≤ c && c ≤ 122)

/-- The ASCII letter `c` in the other case; any other code unit unchanged. -/
def swap_case (c : Nat) : Nat :=
  if 65 ≤ c ∧ c ≤ 90 then c + 32 else if 97 ≤ c ∧ c ≤ 122 then c - 32 else c

/-- Whether `s` is obtained from `e` by changing the case of some of its ASCII
letters: position by position, `s` has the code unit of `e` or that letter in the
other case. -/
def case_variant : WStr → WStr → Bool
  | [], [] => true
  | a :: e, b :: s => (b = a || (is_ascii_letter a && b = swap_case a)) && case_variant e s
  | _, _ => false

/-! ## Unique destination resolver -/

/-- The conversion `%d` of `swprintf_s` for a non-negative `int`. -/
def fmt_d (i : Nat) : WStr := (Nat.toDigits 10 i).map Char.toNat

/-- `path_join`: `swprintf_s(out, MAX_PATH, L"%s\\%s", a, b)`. -/
def path_join (a b : WStr) : Option WStr :=
  swprintf_s MAX_PATH (a ++ [BACKSLASH] ++ b)

/-- The split of `make_unique_dest` (source lines 88 to 104) of an existing `dest`
whose last backslash is at offset `dirLen`: the buffers `dir`, `base` and `ext`. -/
def split_dest (dest : WStr) (dirLen : Nat) : Option (WStr × WStr × WStr) :=
  match wcsncpy_s MAX_PATH dest dirLen with
  | none => none
  | some dir =>
    let name := dest.drop (dirLen + 1)
    match wcsrchr name DOT with
    | some nameLen =>
      let ext := wcsncpy_s_truncate MAX_PATH (name.drop nameLen)
      match wcsncpy_s MAX_PATH name nameLen with
      | none => none
      | some base => some (dir, base, ext)
    | none => some (dir, wcsncpy_s_truncate MAX_PATH name, [])

/-- The two `swprintf_s` calls that fill `candidate` in the loop of
`make_unique_dest`: `L"%s\\%s (%d)%s"` when `ext[0]` is set, `L"%s\\%s (%d)"` otherwise. -/
def format_candidate (dir base : WStr) (i : Nat) (ext : WStr) : Option WStr :=
  if ext ≠ [] then
    swprintf_s MAX_PATH (dir ++ [BACKSLASH] ++ base ++ L " (" ++ fmt_d i ++ L ")" ++ ext)
  else
    swprintf_s MAX_PATH (dir ++ [BACKSLASH] ++ base ++ L " (" ++ fmt_d i ++ L ")")

/-- The loop `for (int i = 1; i < 1000; ++i)` of `make_unique_dest`, with `n` iterations
left and the loop variable at `i`; `file_exists p` is
`GetFileAttributesW(p) != INVALID_FILE_ATTRIBUTES`. Falling out of the loop leaves
`dest` as it was. -/
def try_suffixes (file_exists : WStr → Bool) (dest dir base ext : WStr) :
    Nat → Nat → Option WStr
  | 0, _ => some dest
  | n + 1, i =>
    match format_candidate dir base i ext with
    | none => none
    | some candidate =>
      if !file_exists candidate then some (wcsncpy_s_truncate MAX_PATH candidate)
      else try_suffixes file_exists dest dir base ext n (i + 1)

/-- `make_unique_dest`: the contents of the buffer `dest` on return, or `none` when
the process is terminated while formatting a candidate. -/
def make_unique_dest (file_exists : WStr → Bool) (dest : WStr) : Option WStr :=
  if !file_exists dest then some dest
  else
    match wcsrchr dest BACKSLASH with
    | none => some dest
    | some dirLen =>
      match split_dest dest dirLen with
      | none => none
      | some (dir, base, ext) => try_suffixes file_exists dest dir base ext 999 1

/-- The text `dir\base (i)ext`, which both formats of `format_candidate` expand to
(with an empty `ext` for the second). -/
def candidate_text (dir base : WStr) (i : Nat) (ext : WStr) : WStr :=
  dir ++ [BACKSLASH] ++ base ++ L " (" ++ fmt_d i ++ L ")" ++ ext

/-- The text of the `i`-th candidate of `dest`, `dir\base (i)ext` for the split
`make_unique_dest` computes; `dest` itself when it has no backslash (no candidate is
formed then). -/
def candidate (dest : WStr) (i : Nat) : WStr :=
  match wcsrchr dest BACKSLASH with
  | none => dest
  | some dirLen =>
    match split_dest dest dirLen with
    | none => dest
    | some (dir, base, ext) => candidate_text dir base i ext

/-! ## Relocation loop of `wmain` -/

/-- The two file-system calls of the program, as functions of the file-system
state `σ`. `GetFileAttributesW s p` is `true` when the call returns something other
than `INVALID_FILE_ATTRIBUTES`, that is when an entry exists at `p`.
`MoveFileW s src dest` is the `BOOL` result and the state after the call. -/
structure Win32 (σ : Type) where
  GetFileAttributesW : σ → WStr → Bool
  MoveFileW : σ → WStr → WStr → Bool × σ

/-- The fields of `WIN32_FIND_DATAW` the program reads. -/
structure FileEntry where
  dwFileAttributes : Nat
  cFileName : WStr
deriving DecidableEq, Repr

/-- The constant `FILE_ATTRIBUTE_DIRECTORY`. -/
def FILE_ATTRIBUTE_DIRECTORY : Nat := 16

/-- `ffd.dwFileAttributes & FILE_ATTRIBUTE_DIRECTORY`. -/
def is_directory (ffd : FileEntry) : Bool :=
  ffd.dwFileAttributes &&& FILE_ATTRIBUTE_DIRECTORY != 0

/-- One call of `MoveFileW` made by the loop: its arguments and its result. -/
structure MoveCall where
  src : WStr
  dest : WStr
  ok : Bool
deriving DecidableEq, Repr

/-- The state of the loop of `wmain`: the three counters, the file system, and the
calls of `MoveFileW` made so far, oldest first. -/
structure LoopState (σ : Type) where
  moved : Nat
  skipped : Nat
  errors : Nat
  fs : σ
  calls : List MoveCall

/-- `dot ? dot : L""` for `dot = wcsrchr(name, L'.')`: the argument the loop passes to
`classify_extension`. -/
def entry_extension (name : WStr) : WStr :=
  match wcsrchr name DOT with
  | some k => name.drop k
  | none => L ""

/-- The `wcscmp` chain that fills `destDir` (source lines 200 to 203); `none` is its
final `else`. -/
def choose_dest_dir (docsRecent picsRecent vidsRecent category : WStr) : Option WStr :=
  if wcscmp_eq category (L "Documents") then some (wcsncpy_s_truncate MAX_PATH docsRecent)
  else if wcscmp_eq category (L "Pictures") then some (wcsncpy_s_truncate MAX_PATH picsRecent)
  else if wcscmp_eq category (L "Videos") then some (wcsncpy_s_truncate MAX_PATH vidsRecent)
  else none

/-- The body of the `do { ... } while (FindNextFileW(...))` loop of `wmain` for one
directory entry; `none` when the process is terminated in `path_join` or
`make_unique_dest`. -/
def loop_body {σ : Type} (w : Win32 σ) (downloads docsRecent picsRecent vidsRecent : WStr)
    (st : LoopState σ) (ffd : FileEntry) : Option (LoopState σ) :=
  if is_directory ffd then some st
  else
    let name := ffd.cFileName
    match classify_extension (some (entry_extension name)) with
    | none => some { st with skipped := st.skipped + 1 }
    | some category =>
      match choose_dest_dir docsRecent picsRecent vidsRecent category with
      | none => some { st with skipped := st.skipped + 1 }
      | some destDir =>
        match path_join downloads name with
        | none => none
        | some src =>
          match path_join destDir name with
          | none => none
          | some dest0 =>
            match make_unique_dest (w.GetFileAttributesW st.fs) dest0 with
            | none => none
            | some dest =>
              let r := w.MoveFileW st.fs src dest
              if r.1 then
                some { st with moved := st.moved + 1, fs := r.2,
                               calls := st.calls ++ [⟨src, dest, true⟩] }
              else
                some { st with errors := st.errors + 1, fs := r.2,
                               calls := st.calls ++ [⟨src, dest, false⟩] }

/-- The loop of `wmain` over the entries `FindFirstFileW` and `FindNextFileW` return,
in that order, started in state `st`. -/
def run_loop {σ : Type} (w : Win32 σ) (downloads docsRecent picsRecent vidsRecent : WStr) :
    LoopState σ → List FileEntry → Option (LoopState σ)
  | st, [] => some st
  | st, ffd :: rest =>
    match loop_body w downloads docsRecent picsRecent vidsRecent st ffd with
    | none => none
    | some st1 => run_loop w downloads docsRecent picsRecent vidsRecent st1 rest

/-- The state in which `wmain` enters its loop: `moved = skipped = errors = 0`. -/
def initial_state {σ : Type} (fs : σ) : LoopState σ :=
  { moved := 0, skipped := 0, errors := 0, fs := fs, calls := [] }

/-- The relocation pass of `wmain` over a listing of the Downloads directory. -/
def relocate {σ : Type} (w : Win32 σ) (downloads docsRecent picsRecent vidsRecent : WStr)
    (fs : σ) (listing : List FileEntry) : Option (LoopState σ) :=
  run_loop w downloads docsRecent picsRecent vidsRecent (initial_state fs) listing

/-- The directory the loop chooses for an entry named `name`: the `destDir` of its
category, or `none` when the entry is skipped as unknown. -/
def entry_dest_dir (docsRecent picsRecent vidsRecent name : WStr) : Option WStr :=
  match classify_extension (some (entry_extension name)) with
  | none => none
  | some category => choose_dest_dir docsRecent picsRecent vidsRecent category

/-- Whether every path the loop formats for an entry fits a `MAX_PATH` buffer: for a
file with a known category, its source, its destination and the 999 candidates of
the destination (6 more code units at most). Nothing is formatted for a directory
or an unknown file. -/
def entry_fits (downloads docsRecent picsRecent vidsRecent : WStr) (ffd : FileEntry) : Bool :=
  is_directory ffd ||
    match entry_dest_dir docsRecent picsRecent vidsRecent ffd.cFileName with
    | none => true
    | some destDir =>
      decide (downloads.length + 1 + ffd.cFileName.length < MAX_PATH) &&
        decide (destDir.length + 1 + ffd.cFileName.length + 6 < MAX_PATH)

/-- Whether the loop calls `MoveFileW` for an entry (when it gets that far): a file
with a known category. -/
def is_classified (docsRecent picsRecent vidsRecent : WStr) (ffd : FileEntry) : Bool :=
  !is_directory ffd && (entry_dest_dir docsRecent picsRecent vidsRecent ffd.cFileName).isSome

/-- A model file system for the examples: the state is the list of the paths at
which an entry exists; `MoveFileW` fails when its source is missing or its
destination exists, and renames the entry otherwise. -/
def disk : Win32 (List WStr) where
  GetFileAttributesW := fun d p => d.contains p
  MoveFileW := fun d src dest =>
    if d.contains src && !d.contains dest then (true, dest :: d.erase src) else (false, d)

/-! ## `wmain` -/

/-- The four known folders `wmain` asks for (`FOLDERID_Downloads`, ...). -/
inductive KnownFolder where
  | Downloads
  | Documents
  | Pictures
  | Videos
deriving DecidableEq, Repr

/-- The platform as `wmain` sees it: the two calls of `Win32` and
* `CoInitializeEx`: whether the call succeeds;
* `SHGetKnownFolderPath id`: the path, when the call succeeds and returns one;
* `is_directory_at s p`: whether the attributes of `p` have `FILE_ATTRIBUTE_DIRECTORY`;
* `CreateDirectoryW s p`: the file system after the call (its result is ignored);
* `FindFirstFileW s pattern`: the first entry and the entries `FindNextFileW` returns
  after it, or `none` for `INVALID_HANDLE_VALUE`. -/
structure Host (σ : Type) extends Win32 σ where
  CoInitializeEx : Bool
  SHGetKnownFolderPath : KnownFolder → Option WStr
  is_directory_at : σ → WStr → Bool
  CreateDirectoryW : σ → WStr → σ
  FindFirstFileW : σ → WStr → Option (FileEntry × List FileEntry)

/-- `get_known_folder`: the contents of `outPath` when it returns `true`, `none` when
it returns `false`. -/
def get_known_folder {σ : Type} (h : Host σ) (id : KnownFolder) : Option WStr :=
  match h.SHGetKnownFolderPath id with
  | some path => some (wcsncpy_s_truncate MAX_PATH path)
  | none => none

/-- `ensure_dir`: the file system after the call. -/
def ensure_dir {σ : Type} (h : Host σ) (s : σ) (path : WStr) : σ :=
  if !h.GetFileAttributesW s path || !h.is_directory_at s path then h.CreateDirectoryW s path
  else s

/-- `wmain`: its return value and the state it ends in (the counters, the file system
and the `MoveFileW` calls; the counters are 0 when the loop is not reached), or `none`
when the process is terminated in `path_join` or `make_unique_dest`. -/
def wmain {σ : Type} (h : Host σ) (fs : σ) : Option (Nat × LoopState σ) :=
  if !h.CoInitializeEx then some (1, initial_state fs)
  else
    match get_known_folder h KnownFolder.Downloads with
    | none => some (1, initial_state fs)
    | some downloads =>
    match get_known_folder h KnownFolder.Documents with
    | none => some (1, initial_state fs)
    | some documents =>
    match get_known_folder h KnownFolder.Pictures with
    | none => some (1, initial_state fs)
    | some pictures =>
    match get_known_folder h KnownFolder.Videos with
    | none => some (1, initial_state fs)
    | some videos =>
    match path_join documents (L "Recent Downloads") with
    | none => none
    | some docsRecent =>
    match path_join pictures (L "Recent Downloads") with
    | none => none
    | some picsRecent =>
    match path_join videos (L "Recent Downloads") with
    | none => none
    | some vidsRecent =>
      let fs1 := ensure_dir h fs docsRecent
      let fs2 := ensure_dir h fs1 picsRecent
      let fs3 := ensure_dir h fs2 vidsRecent
      match path_join downloads (L "*") with
      | none => none
      | some searchPattern =>
        match h.FindFirstFileW fs3 searchPattern with
        | none => some (1, initial_state fs3)
        | some (ffd, rest) =>
          match run_loop h.toWin32 downloads docsRecent picsRecent vidsRecent
              (initial_state fs3) (ffd :: rest) with
          | none => none
          | some st => some (0, st)

/-! ## Kinds of entries -/

/-- Whether an entry is a file whose extension `classify_extension` knows: the
extension is the part of the name from its last `.` on, or the empty string. -/
def has_known_category (ffd : FileEntry) : Bool :=
  !is_directory ffd && (classify_extension (some (entry_extension ffd.cFileName))).isSome

/-- Whether an entry is a file whose extension `classify_extension` does not know. -/
def is_unknown_file (ffd : FileEntry) : Bool :=
  !is_directory ffd && (classify_extension (some (entry_extension ffd.cFileName))).isNone

/-! ## The parts of a path, as the specification names them -/

/-- The part of `s` after its last `c`; the whole of `s` when `c` does not occur. -/
def after_last (c : Nat) (s : WStr) : WStr :=
  (s.reverse.takeWhile (fun x => x != c)).reverse

/-- The part of `s` before its last `c`; empty when `c` does not occur. -/
def before_last (c : Nat) (s : WStr) : WStr :=
  (s.reverse.dropWhile (fun x => x != c)).tail.reverse

/-- The directory of a path: what precedes its last backslash. -/
def path_dir (p : WStr) : WStr := before_last BACKSLASH p

/-- The final component of a path: what follows its last backslash. -/
def path_final (p : WStr) : WStr := after_last BACKSLASH p

/-- The extension of a path: its final component from the last `.` on; empty when
the final component has no `.`. -/
def path_ext (p : WStr) : WStr :=
  if DOT ∈ path_final p then DOT :: after_last DOT (path_final p) else []

/-- The base name of a path: its final component without the extension. -/
def path_base (p : WStr) : WStr :=
  if DOT ∈ path_final p then before_last DOT (path_final p) else path_final p

/-- The candidate `i` as the specification words it: directory, backslash, base name,
the suffix ` (i)`, extension. -/
def spec_candidate (p : WStr) (i : Nat) : WStr :=
  path_dir p ++ [BACKSLASH] ++ path_base p ++ L " (" ++ fmt_d i ++ L ")" ++ path_ext p

/-! ## Concrete inputs used by the examples -/

/-- The predicate "exists" of a directory that holds `x.txt` and `x (1).txt`, named
without a directory part. -/
def bare_exists (p : WStr) : Bool := p == L "x.txt" || p == L "x (1).txt"

/-- The predicate "exists" of a disk on which `d\x.txt` and `d\x (1).txt` exist. -/
def two_exist (p : WStr) : Bool := p == L "d\\x.txt" || p == L "d\\x (1).txt"

/-- The predicate "exists" of a disk on which every path exists. -/
def all_exist (_ : WStr) : Bool := true

/-- A destination of 258 code units: `d\`, 252 times `a`, `.txt`. It fits a
`MAX_PATH` buffer; none of its candidates does. -/
def long_dest : WStr := L "d\\" ++ List.replicate 252 97 ++ L ".txt"

/-- The predicate "exists" of a disk on which every path exists except the
candidate ` (1000)` of `d\x.txt`. -/
def all_but_1000 (p : WStr) : Bool := p != L "d\\x (1000).txt"

/-- The predicate "exists" of a disk on which every path exists except `d\x.txt`. -/
def all_but_x (p : WStr) : Bool := p != L "d\\x.txt"

/-- A file system on which every path exists and every move fails. -/
def full : Win32 Unit where
  GetFileAttributesW := fun _ _ => true
  MoveFileW := fun s _ _ => (false, s)

/-- A Downloads directory. -/
def downloads_dir : WStr := L "C:\\Users\\u\\Downloads"

/-- The directory `Recent Downloads` of a Documents folder. -/
def docs_recent : WStr := L "C:\\Users\\u\\Documents\\Recent Downloads"

/-- The directory `Recent Downloads` of a Pictures folder. -/
def pics_recent : WStr := L "C:\\Users\\u\\Pictures\\Recent Downloads"

/-- The directory `Recent Downloads` of a Videos folder. -/
def vids_recent : WStr := L "C:\\Users\\u\\Videos\\Recent Downloads"

/-- A listing entry for a regular file (`FILE_ATTRIBUTE_ARCHIVE`). -/
def file (name : WStr) : FileEntry := ⟨32, name⟩

/-- A listing entry for a directory. -/
def folder (name : WStr) : FileEntry := ⟨FILE_ATTRIBUTE_DIRECTORY, name⟩

/-- A file name of 230 code units: 226 times `a`, then `.jpg`. With the directories
above its source path has 251 code units and its destination path 267. -/
def long_name : WStr := List.replicate 226 97 ++ L ".jpg"

/-- The path of `name` in `dir`. -/
def in_dir (dir name : WStr) : WStr := dir ++ [BACKSLASH] ++ name

/-- What a pass reports: the three counters and the `MoveFileW` calls. -/
def report {σ : Type} (st : LoopState σ) : Nat × Nat × Nat × List MoveCall :=
  (st.moved, st.skipped, st.errors, st.calls)

/-- A file name of 220 code units: 216 times `a`, then `.jpg`. Its path in
`pics_recent` has 257 code units and fits `MAX_PATH`; the candidates of that path,
261 code units and more, do not. -/
def tight_name : WStr := List.replicate 216 97 ++ L ".jpg"

/-- A disk that holds `a.jpg` in Downloads and, in `pics_recent`, `a.jpg` and
`a (1).jpg` to `a (999).jpg`. -/
def crowded : List WStr :=
  in_dir downloads_dir (L "a.jpg") :: in_dir pics_recent (L "a.jpg") ::
    (List.range 999).map (fun i => candidate (in_dir pics_recent (L "a.jpg")) (i + 1))


/-- An extension of 64 code units that begins with `.jpg`: the copy into `low[64]`
keeps its first 63 code units. -/
def padded_jpg : WStr := L ".jpg" ++ List.replicate 60 120

/-- The predicate "exists" of a disk on which `p` is the only entry. -/
def exists_only (p : WStr) : WStr → Bool := fun q => q == p

/-- A model platform for the examples, on the file system `disk`: COM starts, the
known folders are `folders`, every `FindFirstFileW` call gives `listing`, and
`CreateDirectoryW` adds the path when it is missing. -/
def host (folders : KnownFolder → Option WStr)
    (listing : Option (FileEntry × List FileEntry)) : Host (List WStr) :=
  { disk with
    CoInitializeEx := true
    SHGetKnownFolderPath := folders
    is_directory_at := fun d p => d.contains p
    CreateDirectoryW := fun d p => if d.contains p then d else p :: d
    FindFirstFileW := fun _ _ => listing }

/-- The known folders of a user `u`. -/
def home_folders : KnownFolder → Option WStr
  | KnownFolder.Downloads => some (L "C:\\Users\\u\\Downloads")
  | KnownFolder.Documents => some (L "C:\\Users\\u\\Documents")
  | KnownFolder.Pictures => some (L "C:\\Users\\u\\Pictures")
  | KnownFolder.Videos => some (L "C:\\Users\\u\\Videos")

/-- The known folders of a user whose Pictures folder cannot be resolved. -/
def no_pictures : KnownFolder → Option WStr
  | KnownFolder.Pictures => none
  | id => home_folders id

/-- The known folders of a user whose Documents folder has a path of 250 code units:
`C:\`, then 247 times `a`. -/
def deep_documents : KnownFolder → Option WStr
  | KnownFolder.Documents => some (L "C:\\" ++ List.replicate 247 97)
  | id => home_folders id

/-- What a run of `wmain` shows: its exit status and its report. -/
def outcome {σ : Type} (r : Nat × LoopState σ) : Nat × (Nat × Nat × Nat × List MoveCall) :=
  (r.1, report r.2)

/-- The file system a run of `wmain` leaves. -/
def final_fs {σ : Type} (r : Nat × LoopState σ) : σ := r.2.fs

/-! ## Claims on `classify_extension` -/

theorem towlower_swap_case (a : Nat) : towlower (swap_case a) = towlower a := by
  unfold towlower swap_case
  split_ifs <;> first | rfl | omega

theorem case_variant_spec : ∀ (e s : WStr), case_variant e s = true →
    s.length = e.length ∧ to_lower_w s = to_lower_w e
  | [], [], _ => ⟨rfl, rfl⟩
  | [], _ :: _, h => by simp [case_variant] at h
  | _ :: _, [], h => by simp [case_variant] at h
  | a :: e, b :: s, h => by
    simp only [case_variant, Bool.and_eq_true, Bool.or_eq_true, decide_eq_true_eq] at h
    obtain ⟨hb, hrest⟩ := h
    obtain ⟨hl, hm⟩ := case_variant_spec e s hrest
    have hab : towlower b = towlower a := by
      rcases hb with hb | ⟨_, hb⟩
      · rw [hb]
      · rw [hb, towlower_swap_case]
    refine ⟨by simp [hl], ?_⟩
    simp only [to_lower_w, List.map_cons] at hm ⊢
    rw [hab, hm]

theorem classify_extension_short (s : WStr) (h : s.length < 64) :
    classify_extension (some s) =
      if s.length < 2 then none
      else if scan (to_lower_w s) images then some (L "Pictures")
      else if scan (to_lower_w s) videos then some (L "Videos")
      else if scan (to_lower_w s) docs then some (L "Documents")
      else none := by
  have ht : wcsncpy_s_truncate 64 s = s := by
    unfold wcsncpy_s_truncate
    exact List.take_of_length_le (by omega)
  simp only [classify_extension, wcslen, ht]

theorem extension_table_facts : ∀ p ∈ extension_table,
    p.1.length < 64 ∧ classify_extension (some p.1) = some p.2 := by
  decide

/-- C1: for every extension `e` of the table, with category `cat`, and every string `s`
obtained from `e` by changing the case of any of its ASCII letters,
`classify_extension` returns `cat` for `s`. -/
theorem classify_extension_table_any_case (e cat s : WStr)
    (he : (e, cat) ∈ extension_table) (hs : case_variant e s = true) :
    classify_extension (some s) = some cat := by
  obtain ⟨hlen, hcls⟩ := extension_table_facts (e, cat) he
  obtain ⟨hl, hm⟩ := case_variant_spec e s hs
  simp only at hlen hcls
  rw [← hcls, classify_extension_short s (by omega), classify_extension_short e hlen, hl, hm]

theorem classify_extension_table_any_case_witness :
    (L ".jpeg", L "Pictures") ∈ extension_table ∧ case_variant (L ".jpeg") (L ".JpEg") = true ∧
      classify_extension (some (L ".JpEg")) = some (L "Pictures") :=
  ⟨by decide, by decide,
    classify_extension_table_any_case (L ".jpeg") (L "Pictures") (L ".JpEg") (by decide) (by decide)⟩


theorem scan_eq_true {low : WStr} {arr : List WStr} (h : scan low arr = true) : low ∈ arr := by
  simp only [scan, wcscmp_eq, List.any_eq_true, beq_iff_eq] at h
  obtain ⟨e, he, rfl⟩ := h
  exact he

theorem table_entries_short : ∀ e ∈ extension_table.map Prod.fst, e.length ≤ 5 := by
  decide

theorem arrays_in_table : ∀ e ∈ images ++ videos ++ docs, e ∈ extension_table.map Prod.fst := by
  decide

/-- C2: an extension whose lowercased form is not one of the 22 table entries is
unknown: `classify_extension` returns NULL for it, as it does for the NULL pointer.
The lookup is by exact match. -/
theorem classify_extension_unknown (ext : Option WStr)
    (h : ∀ s, ext = some s → to_lower_w s ∉ extension_table.map Prod.fst) :
    classify_extension ext = none := by
  cases ext with
  | none => rfl
  | some s =>
    have hs := h s rfl
    have key : ∀ arr, (∀ e ∈ arr, e ∈ images ++ videos ++ docs) →
        scan (to_lower_w (wcsncpy_s_truncate 64 s)) arr = false := by
      intro arr harr
      by_contra hc
      have hmem := scan_eq_true (Bool.eq_true_of_not_eq_false hc)
      have htab := arrays_in_table _ (harr _ hmem)
      have hlen := table_entries_short _ htab
      by_cases hl : s.length ≤ 63
      · have ht : wcsncpy_s_truncate 64 s = s := List.take_of_length_le hl
        rw [ht] at htab
        exact hs htab
      · simp only [to_lower_w, wcsncpy_s_truncate, List.length_map, List.length_take] at hlen
        omega
    simp only [classify_extension]
    rw [key images (by intro e he; simp [he]), key videos (by intro e he; simp [he]),
      key docs (by intro e he; simp [he])]
    simp

theorem classify_extension_unknown_witness :
    classify_extension none = none ∧
    classify_extension (some (L "")) = none ∧
    classify_extension (some (L ".")) = none ∧
    classify_extension (some (L "jpg")) = none ∧
    classify_extension (some (L ".jpgx")) = none ∧
    classify_extension (some (L "a.jpg")) = none ∧
    classify_extension (some (L ".tar.gz")) = none :=
  ⟨classify_extension_unknown none (by intro s h; cases h),
   classify_extension_unknown (some (L "")) (by intro s h; cases h; decide),
   classify_extension_unknown (some (L ".")) (by intro s h; cases h; decide),
   classify_extension_unknown (some (L "jpg")) (by intro s h; cases h; decide),
   classify_extension_unknown (some (L ".jpgx")) (by intro s h; cases h; decide),
   classify_extension_unknown (some (L "a.jpg")) (by intro s h; cases h; decide),
   classify_extension_unknown (some (L ".tar.gz")) (by intro s h; cases h; decide)⟩

/-! ## Facts about the string helpers -/

theorem wcsrchr_from_none (c : Nat) : ∀ (s : WStr) (i : Nat), wcsrchr_from c s i = none → c ∉ s
  | [], _, _ => by simp
  | x :: xs, i, h => by
    simp only [wcsrchr_from] at h
    cases hq : wcsrchr_from c xs (i + 1) with
    | some q => rw [hq] at h; simp at h
    | none =>
      rw [hq] at h
      simp only at h
      split_ifs at h with hx
      simp only [List.mem_cons, not_or]
      exact ⟨fun e => hx e.symm, wcsrchr_from_none c xs (i + 1) hq⟩

theorem wcsrchr_from_some (c : Nat) : ∀ (s : WStr) (i j : Nat), wcsrchr_from c s i = some j →
    i ≤ j ∧ j < i + s.length ∧ s.get? (j - i) = some c ∧ c ∉ s.drop (j - i + 1)
  | [], _, _, h => by simp [wcsrchr_from] at h
  | x :: xs, i, j, h => by
    simp only [wcsrchr_from] at h
    cases hr : wcsrchr_from c xs (i + 1) with
    | some j1 =>
      rw [hr] at h
      simp only [Option.some.injEq] at h
      subst h
      obtain ⟨h1, h2, h3, h4⟩ := wcsrchr_from_some c xs (i + 1) j1 hr
      have e1 : j1 - i = (j1 - (i + 1)) + 1 := by omega
      refine ⟨by omega, by simp only [List.length_cons]; omega, ?_, ?_⟩
      · rw [e1, List.get?_cons_succ]; exact h3
      · rw [e1, List.drop_succ_cons]; exact h4
    | none =>
      rw [hr] at h
      simp only at h
      split_ifs at h with hx
      simp only [Option.some.injEq] at h
      subst h
      subst hx
      refine ⟨le_refl _, by simp, by simp, ?_⟩
      simp only [Nat.sub_self, zero_add, List.drop_succ_cons, List.drop_zero]
      exact wcsrchr_from_none x xs (i + 1) hr

theorem wcsrchr_drop {s : WStr} {c k : Nat} (h : wcsrchr s c = some k) :
    s.drop k = c :: s.drop (k + 1) := by
  obtain ⟨_, _, h3, _⟩ := wcsrchr_from_some c s 0 k h
  simp only [Nat.sub_zero] at h3
  rw [List.get?_eq_some] at h3
  obtain ⟨hk, hc⟩ := h3
  rw [← hc]
  exact List.drop_eq_getElem_cons hk

theorem wcsrchr_some {s : WStr} {c k : Nat} (h : wcsrchr s c = some k) :
    k < s.length ∧ s = s.take k ++ c :: s.drop (k + 1) ∧ c ∉ s.drop (k + 1) := by
  obtain ⟨_, h2, h3, h4⟩ := wcsrchr_from_some c s 0 k h
  simp only [Nat.sub_zero, zero_add] at h2 h3 h4
  refine ⟨h2, ?_, h4⟩
  have hget : s.get? k = some c := h3
  have hk : s.drop k = c :: s.drop (k + 1) := by
    rw [List.get?_eq_some] at hget
    obtain ⟨hk, hc⟩ := hget
    rw [← hc]
    exact List.drop_eq_getElem_cons hk
  calc s = s.take k ++ s.drop k := (List.take_append_drop k s).symm
    _ = s.take k ++ c :: s.drop (k + 1) := by rw [hk]

theorem wcsrchr_from_not_mem (c : Nat) : ∀ (s : WStr) (i : Nat), c ∉ s → wcsrchr_from c s i = none
  | [], _, _ => rfl
  | x :: xs, i, h => by
    simp only [List.mem_cons, not_or] at h
    simp only [wcsrchr_from, wcsrchr_from_not_mem c xs (i + 1) h.2]
    rw [if_neg (fun e => h.1 e.symm)]

theorem wcsrchr_from_append (c : Nat) (b : WStr) (hb : c ∉ b) :
    ∀ (a : WStr) (i : Nat), wcsrchr_from c (a ++ c :: b) i = some (i + a.length)
  | [], i => by
    simp only [List.nil_append, wcsrchr_from, wcsrchr_from_not_mem c b (i + 1) hb]
    simp
  | x :: xs, i => by
    have ih := wcsrchr_from_append c b hb xs (i + 1)
    simp only [List.cons_append, wcsrchr_from, List.append_eq, ih, List.length_cons]
    rw [show i + 1 + xs.length = i + (xs.length + 1) by omega]

theorem wcsrchr_append {c : Nat} (a b : WStr) (hb : c ∉ b) :
    wcsrchr (a ++ c :: b) c = some a.length := by
  simp [wcsrchr, wcsrchr_from_append c b hb a 0]

theorem wcsrchr_none {s : WStr} {c : Nat} (h : c ∉ s) : wcsrchr s c = none :=
  wcsrchr_from_not_mem c s 0 h

theorem wcsncpy_s_truncate_of_lt {size : Nat} {s : WStr} (h : s.length < size) :
    wcsncpy_s_truncate size s = s :=
  List.take_of_length_le (by omega)

theorem L_open_length : (L " (").length = 2 := by decide

theorem L_close_length : (L ")").length = 1 := by decide

theorem fmt_d_length : ∀ j < 1000,
    (fmt_d j).length = if j < 10 then 1 else if j < 100 then 2 else 3 := by
  decide!

theorem fmt_d_length_mono {j k : Nat} (hjk : j ≤ k) (hk : k < 1000) :
    (fmt_d j).length ≤ (fmt_d k).length := by
  rw [fmt_d_length j (by omega), fmt_d_length k hk]
  split_ifs <;> omega

theorem fmt_d_length_le {j : Nat} (hj : j < 1000) : (fmt_d j).length ≤ 3 := by
  rw [fmt_d_length j hj]
  split_ifs <;> omega

theorem candidate_text_length (dir base ext : WStr) (i : Nat) :
    (candidate_text dir base i ext).length =
      dir.length + 1 + base.length + ext.length + 3 + (fmt_d i).length := by
  simp only [candidate_text, List.length_append, List.length_singleton, L_open_length,
    L_close_length]
  omega

theorem format_candidate_eq (dir base ext : WStr) (i : Nat) :
    format_candidate dir base i ext = swprintf_s MAX_PATH (candidate_text dir base i ext) := by
  unfold format_candidate candidate_text
  by_cases h : ext = []
  · subst h; simp
  · simp [h]

theorem format_candidate_fits {dir base ext : WStr} {i : Nat}
    (h : (candidate_text dir base i ext).length < MAX_PATH) :
    format_candidate dir base i ext = some (candidate_text dir base i ext) := by
  rw [format_candidate_eq, swprintf_s, if_pos h]

theorem format_candidate_some {dir base ext c : WStr} {i : Nat}
    (h : format_candidate dir base i ext = some c) :
    c = candidate_text dir base i ext ∧ c.length < MAX_PATH := by
  rw [format_candidate_eq, swprintf_s] at h
  split_ifs at h with hl
  simp only [Option.some.injEq] at h
  subst h
  exact ⟨rfl, hl⟩

/-- The split of a destination that fits its buffer succeeds, and its three parts
put together with the backslash give the destination back. -/
theorem split_dest_fits {dest : WStr} {dirLen : Nat} (hlen : dest.length < MAX_PATH)
    (hb : wcsrchr dest BACKSLASH = some dirLen) :
    ∃ dir base ext, split_dest dest dirLen = some (dir, base, ext) ∧
      dir = dest.take dirLen ∧ base ++ ext = dest.drop (dirLen + 1) ∧
      dest = dir ++ [BACKSLASH] ++ base ++ ext ∧ BACKSLASH ∉ base ++ ext ∧
      (ext = [] ∨ (∃ t, ext = DOT :: t ∧ DOT ∉ t)) ∧ (ext = [] → DOT ∉ base) := by
  obtain ⟨hk, hsplit, hnot⟩ := wcsrchr_some hb
  have hdir : wcsncpy_s MAX_PATH dest dirLen = some (dest.take dirLen) := by
    unfold wcsncpy_s
    rw [if_pos (by omega)]
  have hnamelen : (dest.drop (dirLen + 1)).length < MAX_PATH := by
    simp only [List.length_drop]; omega
  unfold split_dest
  rw [hdir]
  simp only
  cases hd : wcsrchr (dest.drop (dirLen + 1)) DOT with
  | none =>
    refine ⟨dest.take dirLen, dest.drop (dirLen + 1), [], ?_, rfl, by simp, ?_, ?_, Or.inl rfl, ?_⟩
    · simp only [wcsncpy_s_truncate_of_lt hnamelen]
    · simpa using hsplit
    · simpa using hnot
    · intro _
      exact wcsrchr_from_none DOT _ 0 hd
  | some nameLen =>
    obtain ⟨hn, hnsplit, hnnot⟩ := wcsrchr_some hd
    have hbase : wcsncpy_s MAX_PATH (dest.drop (dirLen + 1)) nameLen =
        some ((dest.drop (dirLen + 1)).take nameLen) := by
      unfold wcsncpy_s
      rw [if_pos (by omega)]
    have hextlen : ((dest.drop (dirLen + 1)).drop nameLen).length < MAX_PATH := by
      rw [List.length_drop]; omega
    simp only [hbase, wcsncpy_s_truncate_of_lt hextlen]
    refine ⟨_, _, _, rfl, rfl, List.take_append_drop _ _, ?_, ?_, Or.inr ⟨_, ?_, hnnot⟩, ?_⟩
    · rw [List.append_assoc, List.take_append_drop]
      simpa using hsplit
    · rw [List.take_append_drop]; exact hnot
    · exact wcsrchr_drop hd
    · intro h0
      exfalso
      have h1 : ((dest.drop (dirLen + 1)).drop nameLen).length = 0 := by rw [h0]; rfl
      rw [List.length_drop] at h1
      omega

/-! ## The suffix search -/

theorem try_suffixes_first_free (ex : WStr → Bool) (dest dir base ext : WStr) (k : Nat)
    (hk : k < 1000) (hfree : ex (candidate_text dir base k ext) = false)
    (hfit : (candidate_text dir base k ext).length < MAX_PATH) :
    ∀ (n i : Nat), i ≤ k → k < i + n →
      (∀ j, i ≤ j → j < k → ex (candidate_text dir base j ext) = true) →
      try_suffixes ex dest dir base ext n i = some (candidate_text dir base k ext)
  | 0, i, h1, h2, _ => by omega
  | n + 1, i, h1, h2, hprev => by
    have hfiti : (candidate_text dir base i ext).length < MAX_PATH := by
      have := fmt_d_length_mono h1 hk
      rw [candidate_text_length] at hfit ⊢
      omega
    simp only [try_suffixes, format_candidate_fits hfiti]
    by_cases hik : i = k
    · subst hik
      simp [hfree, wcsncpy_s_truncate_of_lt hfit]
    · have hlt : i < k := by omega
      simp only [hprev i (le_refl i) hlt, Bool.not_true, Bool.false_eq_true, if_false]
      exact try_suffixes_first_free ex dest dir base ext k hk hfree hfit n (i + 1) (by omega)
        (by omega) (fun j hj hjk => hprev j (by omega) hjk)

theorem try_suffixes_exhausted (ex : WStr → Bool) (dest dir base ext : WStr) :
    ∀ (n i : Nat),
      (∀ j, i ≤ j → j < i + n → ex (candidate_text dir base j ext) = true ∧
        (candidate_text dir base j ext).length < MAX_PATH) →
      try_suffixes ex dest dir base ext n i = some dest
  | 0, _, _ => rfl
  | n + 1, i, h => by
    obtain ⟨hex, hfit⟩ := h i (le_refl i) (by omega)
    simp only [try_suffixes, format_candidate_fits hfit, hex, Bool.not_true, Bool.false_eq_true,
      if_false]
    exact try_suffixes_exhausted ex dest dir base ext n (i + 1)
      (fun j hj hjn => h j (by omega) (by omega))

theorem try_suffixes_some (ex : WStr → Bool) (dest dir base ext : WStr) :
    ∀ (n i : Nat) (r : WStr), try_suffixes ex dest dir base ext n i = some r →
      (ex r = false ∧ ∃ j, i ≤ j ∧ j < i + n ∧ r = candidate_text dir base j ext) ∨ r = dest
  | 0, _, r, h => by
    simp only [try_suffixes, Option.some.injEq] at h
    exact Or.inr h.symm
  | n + 1, i, r, h => by
    simp only [try_suffixes] at h
    cases hf : format_candidate dir base i ext with
    | none => rw [hf] at h; cases h
    | some c =>
      rw [hf] at h
      simp only at h
      obtain ⟨hc, hcl⟩ := format_candidate_some hf
      by_cases hex : ex c = true
      · simp only [hex, Bool.not_true, Bool.false_eq_true, if_false] at h
        rcases try_suffixes_some ex dest dir base ext n (i + 1) r h with ⟨h1, j, h2, h3, h4⟩ | h1
        · exact Or.inl ⟨h1, j, by omega, by omega, h4⟩
        · exact Or.inr h1
      · have hex0 : ex c = false := by simpa using hex
        simp only [hex0, Bool.not_false, if_true, Option.some.injEq,
          wcsncpy_s_truncate_of_lt hcl] at h
        subst h
        exact Or.inl ⟨hex0, i, le_refl i, by omega, hc⟩

theorem try_suffixes_total (ex : WStr → Bool) (dest dir base ext : WStr) :
    ∀ (n i : Nat),
      (∀ j, i ≤ j → j < i + n → (candidate_text dir base j ext).length < MAX_PATH) →
      ∃ r, try_suffixes ex dest dir base ext n i = some r
  | 0, _, _ => ⟨dest, rfl⟩
  | n + 1, i, h => by
    have hfit := h i (le_refl i) (by omega)
    simp only [try_suffixes, format_candidate_fits hfit]
    by_cases hex : ex (candidate_text dir base i ext) = true
    · simp only [hex, Bool.not_true, Bool.false_eq_true, if_false]
      exact try_suffixes_total ex dest dir base ext n (i + 1)
        (fun j hj hjn => h j (by omega) (by omega))
    · have hex0 : ex (candidate_text dir base i ext) = false := by simpa using hex
      simp [hex0]

theorem try_suffixes_congr (ex ex1 : WStr → Bool) (dest dir base ext : WStr) :
    ∀ (n i : Nat),
      (∀ j, i ≤ j → j < i + n →
        ex (candidate_text dir base j ext) = ex1 (candidate_text dir base j ext)) →
      try_suffixes ex dest dir base ext n i = try_suffixes ex1 dest dir base ext n i
  | 0, _, _ => rfl
  | n + 1, i, h => by
    simp only [try_suffixes]
    cases hf : format_candidate dir base i ext with
    | none => rfl
    | some c =>
      obtain ⟨hc, _⟩ := format_candidate_some hf
      simp only
      rw [hc, h i (le_refl i) (by omega),
        try_suffixes_congr ex ex1 dest dir base ext n (i + 1)
          (fun j hj hjn => h j (by omega) (by omega))]

theorem mem_of_wcsrchr_ne_none {s : WStr} {c : Nat} (h : c ∈ s) : ∃ k, wcsrchr s c = some k := by
  cases hw : wcsrchr s c with
  | none => exact absurd h (wcsrchr_from_none c s 0 hw)
  | some k => exact ⟨k, rfl⟩

theorem candidate_eq {dest dir base ext : WStr} {dirLen : Nat}
    (hb : wcsrchr dest BACKSLASH = some dirLen)
    (hs : split_dest dest dirLen = some (dir, base, ext)) (i : Nat) :
    candidate dest i = candidate_text dir base i ext := by
  simp only [candidate, hb, hs]

theorem make_unique_dest_eq {ex : WStr → Bool} {dest dir base ext : WStr} {dirLen : Nat}
    (hex : ex dest = true) (hb : wcsrchr dest BACKSLASH = some dirLen)
    (hs : split_dest dest dirLen = some (dir, base, ext)) :
    make_unique_dest ex dest = try_suffixes ex dest dir base ext 999 1 := by
  simp only [make_unique_dest, hex, hb, hs, Bool.not_true, Bool.false_eq_true, if_false]

theorem candidate_length {dest : WStr} (hlen : dest.length < MAX_PATH) (hb : BACKSLASH ∈ dest)
    (i : Nat) : (candidate dest i).length = dest.length + 3 + (fmt_d i).length := by
  obtain ⟨dirLen, hw⟩ := mem_of_wcsrchr_ne_none hb
  obtain ⟨dir, base, ext, hs, _, _, hd, _⟩ := split_dest_fits hlen hw
  rw [candidate_eq hw hs, candidate_text_length]
  have hlen2 : dest.length = dir.length + 1 + base.length + ext.length := by
    conv_lhs => rw [hd]
    simp only [List.length_append, List.length_singleton]
  omega

theorem make_unique_dest_some (ex : WStr → Bool) (dest r : WStr)
    (h : make_unique_dest ex dest = some r) : ex r = false ∨ r = dest := by
  unfold make_unique_dest at h
  by_cases hex : ex dest = true
  · simp only [hex, Bool.not_true, Bool.false_eq_true, if_false] at h
    cases hw : wcsrchr dest BACKSLASH with
    | none =>
      rw [hw] at h
      simp only [Option.some.injEq] at h
      exact Or.inr h.symm
    | some dirLen =>
      rw [hw] at h
      simp only at h
      cases hs : split_dest dest dirLen with
      | none => rw [hs] at h; cases h
      | some t =>
        obtain ⟨dir, base, ext⟩ := t
        rw [hs] at h
        simp only at h
        rcases try_suffixes_some ex dest dir base ext 999 1 r h with ⟨h1, _⟩ | h1
        · exact Or.inl h1
        · exact Or.inr h1
  · have hex0 : ex dest = false := by simpa using hex
    simp only [hex0, Bool.not_false, if_true, Option.some.injEq] at h
    subst h
    exact Or.inl hex0

theorem make_unique_dest_total (ex : WStr → Bool) (dest : WStr)
    (hlen : dest.length + 6 < MAX_PATH) : ∃ r, make_unique_dest ex dest = some r := by
  by_cases hex : ex dest = true
  · cases hw : wcsrchr dest BACKSLASH with
    | none =>
      exact ⟨dest, by simp [make_unique_dest, hex, hw]⟩
    | some dirLen =>
      have hl : dest.length < MAX_PATH := by omega
      obtain ⟨dir, base, ext, hs, _, _, hd, _⟩ := split_dest_fits hl hw
      rw [make_unique_dest_eq hex hw hs]
      apply try_suffixes_total
      intro j _ hj
      have h3 := fmt_d_length_le (show j < 1000 by omega)
      have hlen2 : dest.length = dir.length + 1 + base.length + ext.length := by
        conv_lhs => rw [hd]
        simp only [List.length_append, List.length_singleton]
      rw [candidate_text_length]
      omega
  · have hex0 : ex dest = false := by simpa using hex
    exact ⟨dest, by simp [make_unique_dest, hex0]⟩

theorem make_unique_dest_of_not_exists (ex : WStr → Bool) (dest : WStr) (h : ex dest = false) :
    make_unique_dest ex dest = some dest := by
  simp [make_unique_dest, h]

theorem make_unique_dest_of_first_free (ex : WStr → Bool) (dest : WStr) (k : Nat)
    (hlen : dest.length < MAX_PATH) (hb : BACKSLASH ∈ dest) (hex : ex dest = true)
    (hk1 : 1 ≤ k) (hk : k ≤ 999)
    (hprev : ∀ j, 1 ≤ j → j < k → ex (candidate dest j) = true)
    (hfree : ex (candidate dest k) = false)
    (hfit : (candidate dest k).length < MAX_PATH) :
    make_unique_dest ex dest = some (candidate dest k) := by
  obtain ⟨dirLen, hw⟩ := mem_of_wcsrchr_ne_none hb
  obtain ⟨dir, base, ext, hs, _⟩ := split_dest_fits hlen hw
  rw [make_unique_dest_eq hex hw hs]
  simp only [candidate_eq hw hs] at hprev hfree hfit ⊢
  exact try_suffixes_first_free ex dest dir base ext k (by omega) hfree hfit 999 1 hk1
    (by omega) hprev

theorem make_unique_dest_of_no_backslash (ex : WStr → Bool) (dest : WStr)
    (hb : BACKSLASH ∉ dest) : make_unique_dest ex dest = some dest := by
  unfold make_unique_dest
  rw [wcsrchr_none hb]
  by_cases h : ex dest = true <;> simp [h]

/-! ## Claims on `make_unique_dest` -/

/-- C3, as stated, fails on the code: a colliding path without a backslash is returned
as it is (the "odd case" of the source). With `x.txt` and `x (1).txt` existing and
`x (2).txt` free, the instance the claim gives, the result is `x.txt`, not
`x (2).txt`. -/
theorem make_unique_dest_first_free_counterexample :
    bare_exists (L "x.txt") = true ∧ bare_exists (L "x (1).txt") = true ∧
      bare_exists (L "x (2).txt") = false ∧
      make_unique_dest bare_exists (L "x.txt") = some (L "x.txt") ∧
      make_unique_dest bare_exists (L "x.txt") ≠ some (L "x (2).txt") := by
  decide!

/-- C3 (amended): a colliding destination without a backslash is returned unchanged.
For a colliding destination that has a backslash and fits its buffer, if the
candidates ` (1)` to ` (k-1)` exist and the candidate ` (k)` is free and fits the
`MAX_PATH` buffer (`1 ≤ k ≤ 999`), then `make_unique_dest` returns exactly the candidate
` (k)`: no free slot is skipped and no colliding candidate is returned. -/
theorem make_unique_dest_first_free (ex : WStr → Bool) (dest : WStr) (hex : ex dest = true) :
    (BACKSLASH ∉ dest → make_unique_dest ex dest = some dest) ∧
    (BACKSLASH ∈ dest → dest.length < MAX_PATH → ∀ k, 1 ≤ k → k ≤ 999 →
      (∀ j, 1 ≤ j → j < k → ex (candidate dest j) = true) →
      ex (candidate dest k) = false →
      (candidate dest k).length < MAX_PATH →
      make_unique_dest ex dest = some (candidate dest k)) :=
  ⟨fun hb => make_unique_dest_of_no_backslash ex dest hb,
   fun hb hlen k hk1 hk hprev hfree hfit =>
    make_unique_dest_of_first_free ex dest k hlen hb hex hk1 hk hprev hfree hfit⟩

theorem make_unique_dest_first_free_witness :
    (two_exist (L "d\\x.txt") = true ∧ two_exist (L "d\\x (1).txt") = true ∧
      two_exist (L "d\\x (2).txt") = false ∧
      candidate (L "d\\x.txt") 2 = L "d\\x (2).txt") ∧
    make_unique_dest two_exist (L "d\\x.txt") = some (candidate (L "d\\x.txt") 2) ∧
    make_unique_dest bare_exists (L "x.txt") = some (L "x.txt") :=
  ⟨⟨by decide, by decide, by decide, by decide⟩,
    (make_unique_dest_first_free two_exist (L "d\\x.txt") (by decide)).2 (by decide) (by decide)
      2 (by decide) (by decide)
      (fun j h1 h2 => by
        have hj : j = 1 := by omega
        subst hj
        decide)
      (by decide) (by decide),
    (make_unique_dest_first_free bare_exists (L "x.txt") (by decide)).1 (by decide)⟩

/-- C4, as stated, fails on the code: when the destination and its 999 candidates all
exist, the path `make_unique_dest` returns is the destination itself, which exists. -/
theorem make_unique_dest_free_counterexample :
    make_unique_dest all_exist (L "d\\x.txt") = some (L "d\\x.txt") ∧
      all_exist (L "d\\x.txt") = true := by
  decide!

/-- C4 (amended): for a destination that fits its buffer, `make_unique_dest` returns a
path that does not exist whenever the destination itself does not exist, or contains
a backslash and has, among ` (1)` .. ` (999)`, a free candidate shorter than
`MAX_PATH`. In every case the path it returns is free or is the destination itself. -/
theorem make_unique_dest_free (ex : WStr → Bool) (dest : WStr) (hlen : dest.length < MAX_PATH) :
    ((ex dest = false ∨ (BACKSLASH ∈ dest ∧ ∃ k, 1 ≤ k ∧ k ≤ 999 ∧
        ex (candidate dest k) = false ∧ (candidate dest k).length < MAX_PATH)) →
      ∃ r, make_unique_dest ex dest = some r ∧ ex r = false) ∧
    (∀ r, make_unique_dest ex dest = some r → ex r = false ∨ r = dest) := by
  refine ⟨?_, fun r h => make_unique_dest_some ex dest r h⟩
  intro h
  by_cases hex : ex dest = true
  · rcases h with h | ⟨hb, hk⟩
    · rw [hex] at h; cases h
    · have hfind : ∃ k, (1 ≤ k ∧ k ≤ 999 ∧ ex (candidate dest k) = false ∧
          (candidate dest k).length < MAX_PATH) := hk
      classical
      have hspec := Nat.find_spec hfind
      have hmin := fun j (hj : j < Nat.find hfind) => Nat.find_min hfind hj
      generalize Nat.find hfind = k at hspec hmin
      obtain ⟨hk1, hk2, hfree, hfit⟩ := hspec
      refine ⟨candidate dest k, ?_, hfree⟩
      apply make_unique_dest_of_first_free ex dest k hlen hb hex hk1 hk2 _ hfree hfit
      intro j hj1 hjk
      by_contra hc
      have hc0 : ex (candidate dest j) = false := by simpa using hc
      apply hmin j hjk
      refine ⟨hj1, by omega, hc0, ?_⟩
      rw [candidate_length hlen hb] at hfit ⊢
      have := fmt_d_length_mono (le_of_lt hjk) (show k < 1000 by omega)
      omega
  · have hex0 : ex dest = false := by simpa using hex
    exact ⟨dest, make_unique_dest_of_not_exists ex dest hex0, hex0⟩

theorem make_unique_dest_free_witness :
    (∃ r, make_unique_dest two_exist (L "d\\x.txt") = some r ∧ two_exist r = false) ∧
      (∃ r, make_unique_dest two_exist (L "d\\y.txt") = some r ∧ two_exist r = false) :=
  ⟨(make_unique_dest_free two_exist (L "d\\x.txt") (by decide)).1
      (Or.inr ⟨by decide, 2, by decide, by decide, by decide, by decide⟩),
    (make_unique_dest_free two_exist (L "d\\y.txt") (by decide)).1 (Or.inl (by decide))⟩

/-- C5: a destination that does not exist is returned unchanged, whatever the
existence status of any other path. -/
theorem make_unique_dest_unchanged (ex : WStr → Bool) (dest : WStr) (h : ex dest = false) :
    make_unique_dest ex dest = some dest :=
  make_unique_dest_of_not_exists ex dest h

theorem make_unique_dest_unchanged_witness :
    all_but_x (L "d\\x.txt") = false ∧ all_but_x (L "d\\x (1).txt") = true ∧
      make_unique_dest all_but_x (L "d\\x.txt") = some (L "d\\x.txt") :=
  ⟨by decide, by decide, make_unique_dest_unchanged all_but_x (L "d\\x.txt") (by decide)⟩

/-! ## One iteration of the loop -/

section Loop

variable {σ : Type} (w : Win32 σ) (downloads docsRecent picsRecent vidsRecent : WStr)

theorem loop_body_directory (st : LoopState σ) (ffd : FileEntry) (h : is_directory ffd = true) :
    loop_body w downloads docsRecent picsRecent vidsRecent st ffd = some st := by
  simp [loop_body, h]

theorem loop_body_unknown (st : LoopState σ) (ffd : FileEntry) (h : is_directory ffd = false)
    (hd : entry_dest_dir docsRecent picsRecent vidsRecent ffd.cFileName = none) :
    loop_body w downloads docsRecent picsRecent vidsRecent st ffd =
      some { st with skipped := st.skipped + 1 } := by
  unfold entry_dest_dir at hd
  unfold loop_body
  simp only [h, Bool.false_eq_true, if_false]
  cases hc : classify_extension (some (entry_extension ffd.cFileName)) with
  | none => rfl
  | some category =>
    rw [hc] at hd
    simp only at hd
    simp only [hd]

theorem loop_body_classified (st : LoopState σ) (ffd : FileEntry) (destDir src dest0 dest : WStr)
    (h : is_directory ffd = false)
    (hd : entry_dest_dir docsRecent picsRecent vidsRecent ffd.cFileName = some destDir)
    (hsrc : path_join downloads ffd.cFileName = some src)
    (hdest0 : path_join destDir ffd.cFileName = some dest0)
    (hdest : make_unique_dest (w.GetFileAttributesW st.fs) dest0 = some dest) :
    loop_body w downloads docsRecent picsRecent vidsRecent st ffd =
      if (w.MoveFileW st.fs src dest).1 then
        some { st with moved := st.moved + 1, fs := (w.MoveFileW st.fs src dest).2,
                       calls := st.calls ++ [⟨src, dest, true⟩] }
      else
        some { st with errors := st.errors + 1, fs := (w.MoveFileW st.fs src dest).2,
                       calls := st.calls ++ [⟨src, dest, false⟩] } := by
  unfold entry_dest_dir at hd
  unfold loop_body
  simp only [h, Bool.false_eq_true, if_false]
  cases hc : classify_extension (some (entry_extension ffd.cFileName)) with
  | none => rw [hc] at hd; cases hd
  | some category =>
    rw [hc] at hd
    simp only at hd
    simp only [hd, hsrc, hdest0, hdest]

/-- The three ways an iteration of the loop ends. -/
theorem loop_body_cases (st st1 : LoopState σ) (ffd : FileEntry)
    (h : loop_body w downloads docsRecent picsRecent vidsRecent st ffd = some st1) :
    (is_directory ffd = true ∧ st1 = st) ∨
    (is_directory ffd = false ∧
      entry_dest_dir docsRecent picsRecent vidsRecent ffd.cFileName = none ∧
      st1 = { st with skipped := st.skipped + 1 }) ∨
    (is_directory ffd = false ∧ ∃ destDir src dest0 dest,
      entry_dest_dir docsRecent picsRecent vidsRecent ffd.cFileName = some destDir ∧
      path_join downloads ffd.cFileName = some src ∧
      path_join destDir ffd.cFileName = some dest0 ∧
      make_unique_dest (w.GetFileAttributesW st.fs) dest0 = some dest ∧
      st1 = { st with
        moved := if (w.MoveFileW st.fs src dest).1 then st.moved + 1 else st.moved,
        errors := if (w.MoveFileW st.fs src dest).1 then st.errors else st.errors + 1,
        fs := (w.MoveFileW st.fs src dest).2,
        calls := st.calls ++ [⟨src, dest, (w.MoveFileW st.fs src dest).1⟩] }) := by
  by_cases hdir : is_directory ffd = true
  · rw [loop_body_directory w _ _ _ _ st ffd hdir] at h
    exact Or.inl ⟨hdir, (Option.some.inj h).symm⟩
  · have hdir0 : is_directory ffd = false := by simpa using hdir
    right
    cases hd : entry_dest_dir docsRecent picsRecent vidsRecent ffd.cFileName with
    | none =>
      rw [loop_body_unknown w _ _ _ _ st ffd hdir0 hd] at h
      exact Or.inl ⟨hdir0, rfl, (Option.some.inj h).symm⟩
    | some destDir =>
      right
      refine ⟨hdir0, destDir, ?_⟩
      have hd1 := hd
      unfold entry_dest_dir at hd1
      unfold loop_body at h
      simp only [hdir0, Bool.false_eq_true, if_false] at h
      cases hc : classify_extension (some (entry_extension ffd.cFileName)) with
      | none => rw [hc] at hd1; cases hd1
      | some category =>
        rw [hc] at hd1 h
        simp only at hd1 h
        rw [hd1] at h
        simp only at h
        cases hsrc : path_join downloads ffd.cFileName with
        | none => rw [hsrc] at h; cases h
        | some src =>
          rw [hsrc] at h
          simp only at h
          cases hdest0 : path_join destDir ffd.cFileName with
          | none => rw [hdest0] at h; cases h
          | some dest0 =>
            rw [hdest0] at h
            simp only at h
            cases hdest : make_unique_dest (w.GetFileAttributesW st.fs) dest0 with
            | none => rw [hdest] at h; cases h
            | some dest =>
              rw [hdest] at h
              simp only at h
              refine ⟨src, dest0, dest, rfl, rfl, rfl, hdest, ?_⟩
              by_cases hok : (w.MoveFileW st.fs src dest).1 = true
              · simp only [hok, if_true, Option.some.injEq] at h ⊢
                exact h.symm
              · have hok0 : (w.MoveFileW st.fs src dest).1 = false := by simpa using hok
                simp only [hok0, Bool.false_eq_true, if_false, Option.some.injEq] at h ⊢
                exact h.symm

theorem path_join_fits {a b : WStr} (h : a.length + 1 + b.length < MAX_PATH) :
    path_join a b = some (a ++ [BACKSLASH] ++ b) := by
  unfold path_join swprintf_s
  rw [if_pos (by simp only [List.length_append, List.length_singleton]; omega)]

theorem path_join_some {a b p : WStr} (h : path_join a b = some p) :
    p = a ++ [BACKSLASH] ++ b ∧ p.length < MAX_PATH := by
  unfold path_join swprintf_s at h
  split_ifs at h with hl
  simp only [Option.some.injEq] at h
  subst h
  exact ⟨rfl, hl⟩

/-- An iteration whose paths all fit `MAX_PATH` runs to its end. -/
theorem loop_body_total (st : LoopState σ) (ffd : FileEntry)
    (hfit : entry_fits downloads docsRecent picsRecent vidsRecent ffd = true) :
    ∃ st1, loop_body w downloads docsRecent picsRecent vidsRecent st ffd = some st1 := by
  by_cases hdir : is_directory ffd = true
  · exact ⟨st, loop_body_directory w _ _ _ _ st ffd hdir⟩
  · have hdir0 : is_directory ffd = false := by simpa using hdir
    cases hd : entry_dest_dir docsRecent picsRecent vidsRecent ffd.cFileName with
    | none => exact ⟨_, loop_body_unknown w _ _ _ _ st ffd hdir0 hd⟩
    | some destDir =>
      simp only [entry_fits, hdir0, hd, Bool.false_or, Bool.and_eq_true, decide_eq_true_eq]
        at hfit
      obtain ⟨h1, h2⟩ := hfit
      have hsrc := path_join_fits h1
      have hdest0 : path_join destDir ffd.cFileName = some (destDir ++ [BACKSLASH] ++ ffd.cFileName) :=
        path_join_fits (by omega)
      obtain ⟨dest, hdest⟩ := make_unique_dest_total (w.GetFileAttributesW st.fs)
        (destDir ++ [BACKSLASH] ++ ffd.cFileName)
        (by simp only [List.length_append, List.length_singleton]; omega)
      rw [loop_body_classified w _ _ _ _ st ffd destDir _ _ dest hdir0 hd hsrc hdest0 hdest]
      split_ifs
      · exact ⟨_, rfl⟩
      · exact ⟨_, rfl⟩

end Loop

/-! ## The whole pass -/

section Pass

variable {σ : Type} (w : Win32 σ) (downloads docsRecent picsRecent vidsRecent : WStr)

theorem run_loop_total : ∀ (listing : List FileEntry) (st : LoopState σ),
    (∀ e ∈ listing, entry_fits downloads docsRecent picsRecent vidsRecent e = true) →
    ∃ st1, run_loop w downloads docsRecent picsRecent vidsRecent st listing = some st1
  | [], st, _ => ⟨st, rfl⟩
  | ffd :: rest, st, h => by
    obtain ⟨st1, h1⟩ := loop_body_total w downloads docsRecent picsRecent vidsRecent st ffd
      (h ffd (List.mem_cons_self _ _))
    simp only [run_loop, h1]
    exact run_loop_total rest st1 (fun e he => h e (List.mem_cons_of_mem _ he))

/-- What a completed pass from state `st` has done: the counters have grown by the
outcomes of the new `MoveFileW` calls and by the unknown files, and the sources of
the new calls are the classified files of the listing, in order. -/
theorem run_loop_summary : ∀ (listing : List FileEntry) (st st1 : LoopState σ),
    run_loop w downloads docsRecent picsRecent vidsRecent st listing = some st1 →
    ∃ new : List MoveCall, st1.calls = st.calls ++ new ∧
      st1.moved = st.moved + new.countP (fun c => c.ok) ∧
      st1.errors = st.errors + new.countP (fun c => !c.ok) ∧
      st1.skipped = st.skipped + listing.countP (fun e =>
        !is_directory e && !is_classified docsRecent picsRecent vidsRecent e) ∧
      new.map (fun c => c.src) =
        (listing.filter (is_classified docsRecent picsRecent vidsRecent)).map
          (fun e => downloads ++ [BACKSLASH] ++ e.cFileName) ∧
      st1.moved + st1.skipped + st1.errors =
        st.moved + st.skipped + st.errors + listing.countP (fun e => !is_directory e)
  | [], st, st1, h => by
    simp only [run_loop, Option.some.injEq] at h
    subst h
    exact ⟨[], by simp⟩
  | ffd :: rest, st, st1, h => by
    simp only [run_loop] at h
    cases hb : loop_body w downloads docsRecent picsRecent vidsRecent st ffd with
    | none => rw [hb] at h; cases h
    | some st2 =>
      rw [hb] at h
      simp only at h
      obtain ⟨new, hc, hm, he, hs, hsrc, hsum⟩ := run_loop_summary rest st2 st1 h
      rcases loop_body_cases w downloads docsRecent picsRecent vidsRecent st st2 ffd hb with
        ⟨hdir, h2⟩ | ⟨hdir, hd, h2⟩ | ⟨hdir, destDir, src, dest0, dest, hd, h3, h4, h5, h2⟩
      · subst h2
        refine ⟨new, hc, hm, he, ?_, ?_, ?_⟩
        · simp [hs, List.countP_cons, hdir]
        · simp [hsrc, List.filter_cons, is_classified, hdir]
        · simp [hsum, List.countP_cons, hdir]
      · subst h2
        simp only at hc hm he hs hsum
        refine ⟨new, hc, hm, he, ?_, ?_, ?_⟩
        · simp only [hs, List.countP_cons, is_classified, hdir, hd]
          simp
          omega
        · simp [hsrc, List.filter_cons, is_classified, hdir, hd]
        · simp only [hsum, List.countP_cons, hdir]
          simp
          omega
      · subst h2
        simp only at hc hm he hs hsum
        obtain ⟨hp, _⟩ := path_join_some h3
        refine ⟨⟨src, dest, (w.MoveFileW st.fs src dest).1⟩ :: new, ?_, ?_, ?_, ?_, ?_, ?_⟩
        · simp [hc]
        · rw [hm, List.countP_cons]
          by_cases hok : (w.MoveFileW st.fs src dest).1 = true
          · simp [hok]; omega
          · have hok0 : (w.MoveFileW st.fs src dest).1 = false := by simpa using hok
            simp [hok0]
        · rw [he, List.countP_cons]
          by_cases hok : (w.MoveFileW st.fs src dest).1 = true
          · simp [hok]
          · have hok0 : (w.MoveFileW st.fs src dest).1 = false := by simpa using hok
            simp [hok0]; omega
        · simp only [hs, List.countP_cons, is_classified, hdir, hd]
          simp
        · simp [hsrc, List.filter_cons, is_classified, hdir, hd, hp]
        · rw [hsum, List.countP_cons]
          by_cases hok : (w.MoveFileW st.fs src dest).1 = true
          · simp [hok, hdir]; omega
          · have hok0 : (w.MoveFileW st.fs src dest).1 = false := by simpa using hok
            simp [hok0, hdir]; omega

end Pass

/-! ## Claims on total collision and on the counters -/

theorem candidate_1000_ne {dest : WStr} (hlen : dest.length < MAX_PATH) (hb : BACKSLASH ∈ dest)
    {j : Nat} (hj : j < 1000) : candidate dest j ≠ candidate dest 1000 ∧ dest ≠ candidate dest 1000 := by
  have h1 := candidate_length hlen hb j
  have h2 := candidate_length hlen hb 1000
  have h3 := fmt_d_length_le hj
  have h4 : (fmt_d 1000).length = 4 := by decide
  constructor
  · intro h
    rw [h] at h1
    omega
  · intro h
    have h5 := congrArg List.length h
    omega

/-- C6 (defect of the code): the destination `long_dest`, 258 code units, exists
and so do all its candidates, yet `make_unique_dest` does not return it unchanged: the
candidate ` (1)`, 262 code units, is formatted by `swprintf_s` into the buffer
`candidate[MAX_PATH]` without a check, and the process is terminated there. In the
loop, the file `tight_name`, whose destination (257 code units) and candidates all
exist, is not counted in `errors`: the pass has no result. -/
theorem make_unique_dest_exhausted_overflow :
    (long_dest.length = 258 ∧ long_dest.length < MAX_PATH ∧ all_exist long_dest = true ∧
      (∀ k, all_exist (candidate long_dest k) = true) ∧
      (candidate long_dest 1).length = 262 ∧
      make_unique_dest all_exist long_dest = none ∧
      make_unique_dest all_exist long_dest ≠ some long_dest) ∧
    (is_directory (file tight_name) = false ∧
      classify_extension (some (entry_extension tight_name)) = some (L "Pictures") ∧
      (path_join downloads_dir tight_name).map List.length = some 241 ∧
      (path_join pics_recent tight_name).map List.length = some 257 ∧
      (relocate full downloads_dir docs_recent pics_recent vids_recent ()
        [file tight_name]).map report = none) :=
  ⟨⟨by decide!, by decide!, rfl, fun _ => rfl, by decide!, by decide!, by decide!⟩,
   by decide!, by decide!, by decide!, by decide!, by decide!⟩

theorem make_unique_dest_all_exist (ex : WStr → Bool) (dest : WStr)
    (hlen : dest.length < MAX_PATH) (hex : ex dest = true)
    (hall : ∀ k, 1 ≤ k → k ≤ 999 →
      ex (candidate dest k) = true ∧ (candidate dest k).length < MAX_PATH) :
    make_unique_dest ex dest = some dest := by
  cases hw : wcsrchr dest BACKSLASH with
  | none => simp [make_unique_dest, hex, hw]
  | some dirLen =>
    obtain ⟨dir, base, ext, hs, _⟩ := split_dest_fits hlen hw
    rw [make_unique_dest_eq hex hw hs]
    apply try_suffixes_exhausted
    intro j hj1 hj2
    have := hall j hj1 (by omega)
    rwa [candidate_eq hw hs] at this

theorem make_unique_dest_ignores_1000 (ex ex1 : WStr → Bool) (dest : WStr)
    (hlen : dest.length < MAX_PATH) (hagree : ∀ p, p ≠ candidate dest 1000 → ex p = ex1 p) :
    make_unique_dest ex dest = make_unique_dest ex1 dest := by
  cases hw : wcsrchr dest BACKSLASH with
  | none =>
    unfold make_unique_dest
    rw [hw]
    by_cases h1 : ex dest = true <;> by_cases h2 : ex1 dest = true <;> simp [h1, h2]
  | some dirLen =>
    have hb : BACKSLASH ∈ dest := by
      by_contra hn
      rw [wcsrchr_none hn] at hw
      cases hw
    obtain ⟨dir, base, ext, hs, _⟩ := split_dest_fits hlen hw
    have hd : ex dest = ex1 dest :=
      hagree dest (candidate_1000_ne hlen hb (show 0 < 1000 by omega)).2
    by_cases hex : ex dest = true
    · rw [make_unique_dest_eq hex hw hs, make_unique_dest_eq (hd ▸ hex) hw hs]
      apply try_suffixes_congr
      intro j _ hj2
      rw [← candidate_eq hw hs]
      exact hagree _ (candidate_1000_ne hlen hb (show j < 1000 by omega)).1
    · have hex0 : ex dest = false := by simpa using hex
      have hex1 : ex1 dest = false := hd ▸ hex0
      simp [make_unique_dest, hex0, hex1]

theorem loop_body_exhausted {σ : Type} (w : Win32 σ)
    (downloads docsRecent picsRecent vidsRecent : WStr)
    (st : LoopState σ) (ffd : FileEntry) (destDir src dest : WStr)
    (hnr : ∀ s a b, w.GetFileAttributesW s b = true → (w.MoveFileW s a b).1 = false)
    (hdir : is_directory ffd = false)
    (hd : entry_dest_dir docsRecent picsRecent vidsRecent ffd.cFileName = some destDir)
    (hsrc : path_join downloads ffd.cFileName = some src)
    (hdest : path_join destDir ffd.cFileName = some dest)
    (hex : w.GetFileAttributesW st.fs dest = true)
    (hall : ∀ k, 1 ≤ k → k ≤ 999 → w.GetFileAttributesW st.fs (candidate dest k) = true ∧
      (candidate dest k).length < MAX_PATH) :
    loop_body w downloads docsRecent picsRecent vidsRecent st ffd =
      some { st with errors := st.errors + 1, fs := (w.MoveFileW st.fs src dest).2,
                     calls := st.calls ++ [⟨src, dest, false⟩] } := by
  have hlen := (path_join_some hdest).2
  have hu := make_unique_dest_all_exist (w.GetFileAttributesW st.fs) dest hlen hex hall
  rw [loop_body_classified w _ _ _ _ st ffd destDir src dest dest hdir hd hsrc hdest hu]
  simp [hnr st.fs src dest hex]

/-- Total collision where the candidates can be formatted: when a destination that
fits its buffer exists and its candidates ` (1)` to ` (999)` all exist and are shorter
than `MAX_PATH`, `make_unique_dest` returns the destination unchanged. The candidate ` (1000)` is never tried: the result does not
depend on whether it exists. In the loop, with a `MoveFileW` that fails on an existing
destination, such an entry adds one to `errors` and nothing to `moved` or `skipped`. -/
theorem make_unique_dest_exhausted :
    (∀ (ex : WStr → Bool) (dest : WStr), dest.length < MAX_PATH → ex dest = true →
      (∀ k, 1 ≤ k → k ≤ 999 →
        ex (candidate dest k) = true ∧ (candidate dest k).length < MAX_PATH) →
      make_unique_dest ex dest = some dest) ∧
    (∀ (ex ex1 : WStr → Bool) (dest : WStr), dest.length < MAX_PATH →
      (∀ p, p ≠ candidate dest 1000 → ex p = ex1 p) →
      make_unique_dest ex dest = make_unique_dest ex1 dest) ∧
    (∀ {σ : Type} (w : Win32 σ) (downloads docsRecent picsRecent vidsRecent : WStr)
      (st : LoopState σ) (ffd : FileEntry) (destDir src dest : WStr),
      (∀ s a b, w.GetFileAttributesW s b = true → (w.MoveFileW s a b).1 = false) →
      is_directory ffd = false →
      entry_dest_dir docsRecent picsRecent vidsRecent ffd.cFileName = some destDir →
      path_join downloads ffd.cFileName = some src →
      path_join destDir ffd.cFileName = some dest →
      w.GetFileAttributesW st.fs dest = true →
      (∀ k, 1 ≤ k → k ≤ 999 → w.GetFileAttributesW st.fs (candidate dest k) = true ∧
        (candidate dest k).length < MAX_PATH) →
      loop_body w downloads docsRecent picsRecent vidsRecent st ffd =
        some { st with errors := st.errors + 1, fs := (w.MoveFileW st.fs src dest).2,
                       calls := st.calls ++ [⟨src, dest, false⟩] }) :=
  ⟨make_unique_dest_all_exist, make_unique_dest_ignores_1000,
    fun w downloads docsRecent picsRecent vidsRecent st ffd destDir src dest =>
      loop_body_exhausted w downloads docsRecent picsRecent vidsRecent st ffd destDir src dest⟩

theorem all_but_1000_facts : ∀ k < 1000,
    all_but_1000 (candidate (L "d\\x.txt") k) = true ∧
      (candidate (L "d\\x.txt") k).length < MAX_PATH := by
  decide!

theorem make_unique_dest_exhausted_witness :
    all_but_1000 (candidate (L "d\\x.txt") 1000) = false ∧
      make_unique_dest all_but_1000 (L "d\\x.txt") = some (L "d\\x.txt") ∧
      make_unique_dest all_but_1000 (L "d\\x.txt") = make_unique_dest all_exist (L "d\\x.txt") ∧
      loop_body full downloads_dir docs_recent pics_recent vids_recent (initial_state ())
          (file (L "x.txt")) =
        some { initial_state () with
          errors := 1,
          calls := [⟨in_dir downloads_dir (L "x.txt"), in_dir docs_recent (L "x.txt"), false⟩] } :=
  ⟨by decide,
   make_unique_dest_exhausted.1 all_but_1000 (L "d\\x.txt") (by decide) (by decide)
     (fun k _ hk => all_but_1000_facts k (by omega)),
   make_unique_dest_exhausted.2.1 all_but_1000 all_exist (L "d\\x.txt") (by decide)
     (fun p hp => by
       have h1 : candidate (L "d\\x.txt") 1000 = L "d\\x (1000).txt" := by decide
       rw [h1] at hp
       simp [all_but_1000, all_exist, hp]),
   make_unique_dest_exhausted.2.2 full downloads_dir docs_recent pics_recent vids_recent
     (initial_state ()) (file (L "x.txt")) docs_recent (in_dir downloads_dir (L "x.txt"))
     (in_dir docs_recent (L "x.txt")) (fun _ _ _ _ => rfl) (by decide) (by decide) (by decide)
     (by decide) rfl
     (fun k _ hk => ⟨rfl, by
       have := @candidate_length (in_dir docs_recent (L "x.txt")) (by decide) (by decide) k
       have h3 := fmt_d_length_le (show k < 1000 by omega)
       have h4 : (in_dir docs_recent (L "x.txt")).length = 43 := by decide
       have h5 : MAX_PATH = 260 := rfl
       omega⟩)⟩

section Counters

variable {σ : Type} (w : Win32 σ) (downloads docsRecent picsRecent vidsRecent : WStr)

theorem run_loop_append : ∀ (l1 l2 : List FileEntry) (st : LoopState σ),
    run_loop w downloads docsRecent picsRecent vidsRecent st (l1 ++ l2) =
      match run_loop w downloads docsRecent picsRecent vidsRecent st l1 with
      | none => none
      | some st1 => run_loop w downloads docsRecent picsRecent vidsRecent st1 l2
  | [], _, _ => rfl
  | ffd :: rest, l2, st => by
    simp only [List.cons_append, run_loop]
    cases loop_body w downloads docsRecent picsRecent vidsRecent st ffd with
    | none => rfl
    | some st2 => exact run_loop_append rest l2 st2

/-- The counters after an iteration that runs to its end: unchanged for a directory,
exactly one of them one higher for any other entry. -/
theorem loop_body_counters (st st1 : LoopState σ) (ffd : FileEntry)
    (h : loop_body w downloads docsRecent picsRecent vidsRecent st ffd = some st1) :
    (is_directory ffd = true →
      st1.moved = st.moved ∧ st1.skipped = st.skipped ∧ st1.errors = st.errors) ∧
    (is_directory ffd = false →
      (st1.moved = st.moved + 1 ∧ st1.skipped = st.skipped ∧ st1.errors = st.errors) ∨
      (st1.moved = st.moved ∧ st1.skipped = st.skipped + 1 ∧ st1.errors = st.errors) ∨
      (st1.moved = st.moved ∧ st1.skipped = st.skipped ∧ st1.errors = st.errors + 1)) := by
  rcases loop_body_cases w downloads docsRecent picsRecent vidsRecent st st1 ffd h with
    ⟨hdir, h2⟩ | ⟨hdir, _, h2⟩ | ⟨hdir, destDir, src, dest0, dest, _, _, _, _, h2⟩
  · subst h2
    exact ⟨fun _ => ⟨rfl, rfl, rfl⟩, fun hf => (by rw [hdir] at hf; cases hf)⟩
  · subst h2
    exact ⟨fun hf => (by rw [hdir] at hf; cases hf), fun _ => Or.inr (Or.inl ⟨rfl, rfl, rfl⟩)⟩
  · subst h2
    refine ⟨fun hf => (by rw [hdir] at hf; cases hf), fun _ => ?_⟩
    by_cases hok : (w.MoveFileW st.fs src dest).1 = true
    · exact Or.inl (by simp [hok])
    · have hok0 : (w.MoveFileW st.fs src dest).1 = false := by simpa using hok
      exact Or.inr (Or.inr (by simp [hok0]))

end Counters

/-- C7 (defect of the code): a listing whose only entry is the file `long_name`
(230 code units, present in Downloads, extension `.jpg`). Its destination path has 267
code units; `path_join` formats it by `swprintf_s` into `dest[MAX_PATH]` without a
check, and the process is terminated there: the entry is neither moved, nor skipped,
nor counted in `errors`, and the pass has no result, so the three counters do not add
up to the one non-directory entry of the listing. -/
theorem relocate_counts_overflow :
    long_name.length = 230 ∧ is_directory (file long_name) = false ∧
      [file long_name].countP (fun e => !is_directory e) = 1 ∧
      (path_join downloads_dir long_name).map List.length = some 251 ∧
      path_join pics_recent long_name = none ∧
      (relocate disk downloads_dir docs_recent pics_recent vids_recent
        [in_dir downloads_dir long_name] [file long_name]).map report = none :=
  ⟨by decide!, by decide!, by decide!, by decide!, by decide!, by decide!⟩

/-- The counters where the paths can be formatted: when every entry of a listing
satisfies `entry_fits` (which is enough for every path the loop formats to fit
`MAX_PATH`), the pass runs to its end, and after every prefix of the listing
`moved + skipped + errors` is the number of non-directory entries of that prefix and
no counter is above its final value. An iteration that runs to its end leaves the
counters unchanged for a directory and adds exactly one to exactly one of them for
any other entry. -/
theorem relocate_counts {σ : Type} (w : Win32 σ)
    (downloads docsRecent picsRecent vidsRecent : WStr) (fs : σ) (listing : List FileEntry)
    (hfit : ∀ e ∈ listing, entry_fits downloads docsRecent picsRecent vidsRecent e = true) :
    (∀ l1 l2, listing = l1 ++ l2 → ∃ st1 st2,
      relocate w downloads docsRecent picsRecent vidsRecent fs l1 = some st1 ∧
      relocate w downloads docsRecent picsRecent vidsRecent fs listing = some st2 ∧
      st1.moved + st1.skipped + st1.errors = l1.countP (fun e => !is_directory e) ∧
      st1.moved ≤ st2.moved ∧ st1.skipped ≤ st2.skipped ∧ st1.errors ≤ st2.errors) ∧
    (∀ (st st1 : LoopState σ) (ffd : FileEntry),
      loop_body w downloads docsRecent picsRecent vidsRecent st ffd = some st1 →
      (is_directory ffd = true →
        st1.moved = st.moved ∧ st1.skipped = st.skipped ∧ st1.errors = st.errors) ∧
      (is_directory ffd = false →
        (st1.moved = st.moved + 1 ∧ st1.skipped = st.skipped ∧ st1.errors = st.errors) ∨
        (st1.moved = st.moved ∧ st1.skipped = st.skipped + 1 ∧ st1.errors = st.errors) ∨
        (st1.moved = st.moved ∧ st1.skipped = st.skipped ∧ st1.errors = st.errors + 1))) := by
  refine ⟨?_, loop_body_counters w downloads docsRecent picsRecent vidsRecent⟩
  intro l1 l2 hl
  subst hl
  obtain ⟨st1, h1⟩ := run_loop_total w downloads docsRecent picsRecent vidsRecent l1
    (initial_state fs) (fun e he => hfit e (List.mem_append_left _ he))
  obtain ⟨st2, h2⟩ := run_loop_total w downloads docsRecent picsRecent vidsRecent l2 st1
    (fun e he => hfit e (List.mem_append_right _ he))
  have h12 : run_loop w downloads docsRecent picsRecent vidsRecent (initial_state fs)
      (l1 ++ l2) = some st2 := by
    rw [run_loop_append, h1]
    exact h2
  obtain ⟨_, _, _, _, _, _, hsum⟩ :=
    run_loop_summary w downloads docsRecent picsRecent vidsRecent l1 _ st1 h1
  obtain ⟨_, _, hm, he, hs, _, _⟩ :=
    run_loop_summary w downloads docsRecent picsRecent vidsRecent l2 st1 st2 h2
  refine ⟨st1, st2, h1, h12, ?_, by omega, by omega, by omega⟩
  simpa [initial_state] using hsum

theorem relocate_counts_witness :
    (relocate disk downloads_dir docs_recent pics_recent vids_recent
        [in_dir downloads_dir (L "song.mp4"), in_dir downloads_dir (L "setup.exe")]
        [folder (L "."), folder (L ".."), file (L "song.mp4"), file (L "setup.exe"),
          file (L "gone.png")]).map report =
      some (1, 1, 1,
        [⟨in_dir downloads_dir (L "song.mp4"), in_dir vids_recent (L "song.mp4"), true⟩,
         ⟨in_dir downloads_dir (L "gone.png"), in_dir pics_recent (L "gone.png"), false⟩]) ∧
    ∃ st1 st2,
      relocate disk downloads_dir docs_recent pics_recent vids_recent
        [in_dir downloads_dir (L "song.mp4"), in_dir downloads_dir (L "setup.exe")]
        [folder (L "."), folder (L ".."), file (L "song.mp4")] = some st1 ∧
      relocate disk downloads_dir docs_recent pics_recent vids_recent
        [in_dir downloads_dir (L "song.mp4"), in_dir downloads_dir (L "setup.exe")]
        [folder (L "."), folder (L ".."), file (L "song.mp4"), file (L "setup.exe"),
          file (L "gone.png")] = some st2 ∧
      st1.moved + st1.skipped + st1.errors =
        [folder (L "."), folder (L ".."), file (L "song.mp4")].countP
          (fun e => !is_directory e) ∧
      st1.moved ≤ st2.moved ∧ st1.skipped ≤ st2.skipped ∧ st1.errors ≤ st2.errors :=
  ⟨by decide!,
   (relocate_counts disk downloads_dir docs_recent pics_recent vids_recent
      [in_dir downloads_dir (L "song.mp4"), in_dir downloads_dir (L "setup.exe")]
      [folder (L "."), folder (L ".."), file (L "song.mp4"), file (L "setup.exe"),
        file (L "gone.png")] (by decide!)).1
      [folder (L "."), folder (L ".."), file (L "song.mp4")]
      [file (L "setup.exe"), file (L "gone.png")] rfl⟩

/-! ## Claims on the destination of a move -/

theorem classify_extension_range (x : Option WStr) (category : WStr)
    (h : classify_extension x = some category) :
    category = L "Pictures" ∨ category = L "Videos" ∨ category = L "Documents" := by
  unfold classify_extension at h
  cases x with
  | none => cases h
  | some e =>
    simp only at h
    split_ifs at h
    · exact Or.inl (Option.some.inj h).symm
    · exact Or.inr (Or.inl (Option.some.inj h).symm)
    · exact Or.inr (Or.inr (Option.some.inj h).symm)

theorem choose_dest_dir_spec (docsRecent picsRecent vidsRecent : WStr) :
    choose_dest_dir docsRecent picsRecent vidsRecent (L "Pictures") =
        some (wcsncpy_s_truncate MAX_PATH picsRecent) ∧
      choose_dest_dir docsRecent picsRecent vidsRecent (L "Videos") =
        some (wcsncpy_s_truncate MAX_PATH vidsRecent) ∧
      choose_dest_dir docsRecent picsRecent vidsRecent (L "Documents") =
        some (wcsncpy_s_truncate MAX_PATH docsRecent) := by
  unfold choose_dest_dir
  refine ⟨?_, ?_, ?_⟩
  · rw [if_neg (by decide), if_pos (by decide)]
  · rw [if_neg (by decide), if_neg (by decide), if_pos (by decide)]
  · rw [if_pos (by decide)]

theorem fmt_d_no_backslash : ∀ j < 1000, BACKSLASH ∉ fmt_d j := by
  decide!

/-- The path `make_unique_dest` returns for `dir\name`, when `name` has no backslash,
is again a path `dir\leaf` whose `leaf` has no backslash. -/
theorem make_unique_dest_same_dir (ex : WStr → Bool) (dir name r : WStr)
    (hname : BACKSLASH ∉ name) (hlen : (dir ++ [BACKSLASH] ++ name).length < MAX_PATH)
    (h : make_unique_dest ex (dir ++ [BACKSLASH] ++ name) = some r) :
    ∃ leaf, r = dir ++ [BACKSLASH] ++ leaf ∧ BACKSLASH ∉ leaf ∧
      (ex (dir ++ [BACKSLASH] ++ name) = false → leaf = name) := by
  by_cases hex : ex (dir ++ [BACKSLASH] ++ name) = true
  · have hw : wcsrchr (dir ++ [BACKSLASH] ++ name) BACKSLASH = some dir.length := by
      have := wcsrchr_append dir name hname
      simpa using this
    obtain ⟨d, base, ext, hs, hd, _, hall, _⟩ := split_dest_fits hlen hw
    have hd2 : d = dir := by
      rw [hd, List.append_assoc, List.take_left]
    have hbe2 : base ++ ext = name := by
      rw [hd2] at hall
      simp only [List.append_assoc, List.append_cancel_left_eq, List.cons_append,
        List.nil_append, List.cons.injEq, true_and] at hall
      exact hall.symm
    rw [make_unique_dest_eq hex hw hs] at h
    rcases try_suffixes_some ex _ d base ext 999 1 r h with ⟨_, j, _, hj, hr⟩ | hr
    · refine ⟨base ++ L " (" ++ fmt_d j ++ L ")" ++ ext, ?_, ?_, ?_⟩
      · rw [hr, hd2]
        simp [candidate_text]
      · have hb : BACKSLASH ∉ base ∧ BACKSLASH ∉ ext := by
          rw [← hbe2] at hname
          simpa [not_or] using hname
        have hj' := fmt_d_no_backslash j (by omega)
        have h1 : BACKSLASH ∉ L " (" := by decide
        have h2 : BACKSLASH ∉ L ")" := by decide
        simp only [List.mem_append, not_or]
        exact ⟨⟨⟨⟨hb.1, h1⟩, hj'⟩, h2⟩, hb.2⟩
      · intro hf
        rw [hex] at hf
        cases hf
    · exact ⟨name, hr, hname, fun _ => rfl⟩
  · have hex0 : ex (dir ++ [BACKSLASH] ++ name) = false := by simpa using hex
    rw [make_unique_dest_of_not_exists ex _ hex0] at h
    exact ⟨name, (Option.some.inj h).symm, hname, fun _ => rfl⟩

/-- C8 (defect of the code): the file `long_name` (230 code units, no backslash)
classifies as Pictures, but the loop never calls `MoveFileW` for it. Its source path
fits `MAX_PATH`; its destination path, 267 code units, does not: `path_join` formats
it by `swprintf_s` into `dest[MAX_PATH]` without a check, and the process is terminated
there. -/
theorem loop_body_destination_overflow :
    is_directory (file long_name) = false ∧
      classify_extension (some (entry_extension long_name)) = some (L "Pictures") ∧
      BACKSLASH ∉ long_name ∧
      (path_join downloads_dir long_name).isSome = true ∧
      path_join pics_recent long_name = none ∧
      (loop_body disk downloads_dir docs_recent pics_recent vids_recent
        (initial_state [in_dir downloads_dir long_name]) (file long_name)).map report = none := by
  decide!

/-- The call of an iteration where the paths can be formatted: for a non-directory
entry whose name has no backslash, whose extension classifies as category C and which
satisfies `entry_fits` (enough for its paths to fit `MAX_PATH`), the loop calls
`MoveFileW` once, with source `downloads\name` and a destination `destDir\leaf` where
`destDir` is the `Recent Downloads` directory of C and `leaf` has no backslash; `leaf`
is `name` when `destDir\name` does not exist. -/
theorem loop_body_destination {σ : Type} (w : Win32 σ)
    (downloads docsRecent picsRecent vidsRecent : WStr) (st : LoopState σ) (ffd : FileEntry)
    (category : WStr)
    (hdocs : docsRecent.length < MAX_PATH) (hpics : picsRecent.length < MAX_PATH)
    (hvids : vidsRecent.length < MAX_PATH)
    (hfile : is_directory ffd = false)
    (hcat : classify_extension (some (entry_extension ffd.cFileName)) = some category)
    (hname : BACKSLASH ∉ ffd.cFileName)
    (hfit : entry_fits downloads docsRecent picsRecent vidsRecent ffd = true) :
    ∃ destDir leaf ok st1,
      ((category = L "Pictures" ∧ destDir = picsRecent) ∨
        (category = L "Videos" ∧ destDir = vidsRecent) ∨
        (category = L "Documents" ∧ destDir = docsRecent)) ∧
      BACKSLASH ∉ leaf ∧
      (w.GetFileAttributesW st.fs (destDir ++ [BACKSLASH] ++ ffd.cFileName) = false →
        leaf = ffd.cFileName) ∧
      ok = (w.MoveFileW st.fs (downloads ++ [BACKSLASH] ++ ffd.cFileName)
        (destDir ++ [BACKSLASH] ++ leaf)).1 ∧
      loop_body w downloads docsRecent picsRecent vidsRecent st ffd = some st1 ∧
      st1.calls = st.calls ++
        [⟨downloads ++ [BACKSLASH] ++ ffd.cFileName, destDir ++ [BACKSLASH] ++ leaf, ok⟩] := by
  obtain ⟨hP, hV, hD⟩ := choose_dest_dir_spec docsRecent picsRecent vidsRecent
  rw [wcsncpy_s_truncate_of_lt hpics] at hP
  rw [wcsncpy_s_truncate_of_lt hvids] at hV
  rw [wcsncpy_s_truncate_of_lt hdocs] at hD
  have hdir : ∃ destDir,
      entry_dest_dir docsRecent picsRecent vidsRecent ffd.cFileName = some destDir ∧
      ((category = L "Pictures" ∧ destDir = picsRecent) ∨
        (category = L "Videos" ∧ destDir = vidsRecent) ∨
        (category = L "Documents" ∧ destDir = docsRecent)) := by
    unfold entry_dest_dir
    rw [hcat]
    rcases classify_extension_range _ _ hcat with hc | hc | hc
    · exact ⟨picsRecent, by rw [hc]; exact hP, Or.inl ⟨hc, rfl⟩⟩
    · exact ⟨vidsRecent, by rw [hc]; exact hV, Or.inr (Or.inl ⟨hc, rfl⟩)⟩
    · exact ⟨docsRecent, by rw [hc]; exact hD, Or.inr (Or.inr ⟨hc, rfl⟩)⟩
  obtain ⟨destDir, hd, hwhich⟩ := hdir
  simp only [entry_fits, hfile, hd, Bool.false_or, Bool.and_eq_true, decide_eq_true_eq] at hfit
  obtain ⟨h1, h2⟩ := hfit
  have hsrc := path_join_fits h1
  have hdest0 : path_join destDir ffd.cFileName =
      some (destDir ++ [BACKSLASH] ++ ffd.cFileName) := path_join_fits (by omega)
  have hlen : (destDir ++ [BACKSLASH] ++ ffd.cFileName).length + 6 < MAX_PATH := by
    simp only [List.length_append, List.length_singleton]; omega
  obtain ⟨dest, hdest⟩ := make_unique_dest_total (w.GetFileAttributesW st.fs) _ hlen
  obtain ⟨leaf, hleaf, hnb, hsame⟩ := make_unique_dest_same_dir (w.GetFileAttributesW st.fs)
    destDir ffd.cFileName dest hname (by omega) hdest
  subst hleaf
  have hbody := loop_body_classified w downloads docsRecent picsRecent vidsRecent st ffd destDir
    _ _ _ hfile hd hsrc hdest0 hdest
  by_cases hok : (w.MoveFileW st.fs (downloads ++ [BACKSLASH] ++ ffd.cFileName)
      (destDir ++ [BACKSLASH] ++ leaf)).1 = true
  · rw [if_pos hok] at hbody
    exact ⟨destDir, leaf, true, _, hwhich, hnb, hsame, hok.symm, hbody, rfl⟩
  · have hok0 : (w.MoveFileW st.fs (downloads ++ [BACKSLASH] ++ ffd.cFileName)
        (destDir ++ [BACKSLASH] ++ leaf)).1 = false := by simpa using hok
    rw [if_neg hok] at hbody
    exact ⟨destDir, leaf, false, _, hwhich, hnb, hsame, hok0.symm, hbody, rfl⟩

theorem loop_body_destination_witness :
    (relocate disk downloads_dir docs_recent pics_recent vids_recent
        [in_dir downloads_dir (L "a.jpg"), in_dir downloads_dir (L "b.xyz"),
          in_dir downloads_dir (L "c.pdf")]
        [folder (L "sub"), file (L "a.jpg"), file (L "b.xyz"), file (L "c.pdf")]).map report =
      some (2, 1, 0,
        [⟨in_dir downloads_dir (L "a.jpg"), in_dir pics_recent (L "a.jpg"), true⟩,
         ⟨in_dir downloads_dir (L "c.pdf"), in_dir docs_recent (L "c.pdf"), true⟩]) ∧
    ∃ destDir leaf ok st1,
      ((L "Pictures" = L "Pictures" ∧ destDir = pics_recent) ∨
        (L "Pictures" = L "Videos" ∧ destDir = vids_recent) ∨
        (L "Pictures" = L "Documents" ∧ destDir = docs_recent)) ∧
      BACKSLASH ∉ leaf ∧
      (disk.GetFileAttributesW [in_dir downloads_dir (L "a.jpg")]
          (destDir ++ [BACKSLASH] ++ L "a.jpg") = false → leaf = L "a.jpg") ∧
      ok = (disk.MoveFileW [in_dir downloads_dir (L "a.jpg")]
        (downloads_dir ++ [BACKSLASH] ++ L "a.jpg") (destDir ++ [BACKSLASH] ++ leaf)).1 ∧
      loop_body disk downloads_dir docs_recent pics_recent vids_recent
        (initial_state [in_dir downloads_dir (L "a.jpg")]) (file (L "a.jpg")) = some st1 ∧
      st1.calls = [] ++
        [⟨downloads_dir ++ [BACKSLASH] ++ L "a.jpg", destDir ++ [BACKSLASH] ++ leaf, ok⟩] :=
  ⟨by decide!,
   loop_body_destination disk downloads_dir docs_recent pics_recent vids_recent
     (initial_state [in_dir downloads_dir (L "a.jpg")]) (file (L "a.jpg")) (L "Pictures")
     (by decide) (by decide) (by decide) (by decide) (by decide) (by decide) (by decide)⟩

/-! ## Claims on failed moves -/

/-- The `MoveFileW` call an iteration adds, when it adds one: its logged result is
the result of the call in the state before it, and the counters follow that result. -/
theorem loop_body_call {σ : Type} (w : Win32 σ)
    (downloads docsRecent picsRecent vidsRecent : WStr) (st st1 : LoopState σ)
    (ffd : FileEntry) (c : MoveCall)
    (h : loop_body w downloads docsRecent picsRecent vidsRecent st ffd = some st1)
    (hc : st1.calls = st.calls ++ [c]) :
    c.ok = (w.MoveFileW st.fs c.src c.dest).1 ∧ st1.fs = (w.MoveFileW st.fs c.src c.dest).2 ∧
      st1.skipped = st.skipped ∧
      (c.ok = false → st1.errors = st.errors + 1 ∧ st1.moved = st.moved) ∧
      (c.ok = true → st1.moved = st.moved + 1 ∧ st1.errors = st.errors) := by
  rcases loop_body_cases w downloads docsRecent picsRecent vidsRecent st st1 ffd h with
    ⟨_, h2⟩ | ⟨_, _, h2⟩ | ⟨_, destDir, src, dest0, dest, _, _, _, _, h2⟩
  · subst h2
    have := congrArg List.length hc
    simp at this
  · subst h2
    have := congrArg List.length hc
    simp at this
  · subst h2
    simp only [List.append_cancel_left_eq, List.cons.injEq, and_true] at hc
    subst hc
    refine ⟨rfl, rfl, rfl, ?_, ?_⟩
    · intro hf
      have hf1 : (w.MoveFileW st.fs src dest).1 = false := hf
      simp [hf1]
    · intro ht
      have ht1 : (w.MoveFileW st.fs src dest).1 = true := ht
      simp [ht1]

/-- C9 (defect of the code): in the listing `gone.jpg`, `long_name`, `c.pdf` the
move of `gone.jpg` fails (the file has disappeared from Downloads) and is counted, but
the later entries are not all processed: the destination path of `long_name` has 267
code units, `path_join` formats it by `swprintf_s` into `dest[MAX_PATH]` without a
check, the process is terminated there, `c.pdf` is never moved and the pass has no
final counts. -/
theorem relocate_errors_overflow :
    (relocate disk downloads_dir docs_recent pics_recent vids_recent
        [in_dir downloads_dir long_name, in_dir downloads_dir (L "c.pdf")]
        [file (L "gone.jpg")]).map report =
      some (0, 0, 1,
        [⟨in_dir downloads_dir (L "gone.jpg"), in_dir pics_recent (L "gone.jpg"), false⟩]) ∧
    (relocate disk downloads_dir docs_recent pics_recent vids_recent
        [in_dir downloads_dir long_name, in_dir downloads_dir (L "c.pdf")]
        [file (L "gone.jpg"), file long_name, file (L "c.pdf")]).map report = none := by
  decide!

/-- Failed moves where the paths can be formatted: when every entry of a listing
satisfies `entry_fits` (enough for every path the loop formats to fit `MAX_PATH`), the
pass runs to its end whatever the results of `MoveFileW`; `errors` is
the number of calls that failed and `moved` the number that succeeded; the sources of
the calls are the classified files of the listing, in order, so every entry after a
failure is still processed; and the three counters add up to the number of
non-directory entries. In any iteration, a failed call adds exactly one to `errors` and
leaves `moved` and `skipped` unchanged. -/
theorem relocate_errors {σ : Type} (w : Win32 σ)
    (downloads docsRecent picsRecent vidsRecent : WStr) (fs : σ) (listing : List FileEntry)
    (hfit : ∀ e ∈ listing, entry_fits downloads docsRecent picsRecent vidsRecent e = true) :
    (∃ st, relocate w downloads docsRecent picsRecent vidsRecent fs listing = some st ∧
      st.errors = st.calls.countP (fun c => !c.ok) ∧
      st.moved = st.calls.countP (fun c => c.ok) ∧
      st.calls.map (fun c => c.src) =
        (listing.filter (is_classified docsRecent picsRecent vidsRecent)).map
          (fun e => downloads ++ [BACKSLASH] ++ e.cFileName) ∧
      st.moved + st.skipped + st.errors = listing.countP (fun e => !is_directory e)) ∧
    (∀ (st st1 : LoopState σ) (ffd : FileEntry) (c : MoveCall),
      loop_body w downloads docsRecent picsRecent vidsRecent st ffd = some st1 →
      st1.calls = st.calls ++ [c] →
      c.ok = (w.MoveFileW st.fs c.src c.dest).1 ∧
      (c.ok = false →
        st1.errors = st.errors + 1 ∧ st1.moved = st.moved ∧ st1.skipped = st.skipped)) := by
  constructor
  · obtain ⟨st, hst⟩ := run_loop_total w downloads docsRecent picsRecent vidsRecent listing
      (initial_state fs) hfit
    obtain ⟨new, hc, hm, he, _, hsrc, hsum⟩ :=
      run_loop_summary w downloads docsRecent picsRecent vidsRecent listing _ st hst
    simp only [initial_state, List.nil_append, zero_add] at hc hm he hsum
    refine ⟨st, hst, ?_, ?_, ?_, hsum⟩
    · rw [he, hc]
    · rw [hm, hc]
    · rw [hc, hsrc]
  · intro st st1 ffd c h hc
    obtain ⟨h1, _, h3, h4, _⟩ :=
      loop_body_call w downloads docsRecent picsRecent vidsRecent st st1 ffd c h hc
    exact ⟨h1, fun hf => ⟨(h4 hf).1, (h4 hf).2, h3⟩⟩

theorem relocate_errors_witness :
    (relocate disk downloads_dir docs_recent pics_recent vids_recent
        [in_dir downloads_dir (L "a.jpg"), in_dir downloads_dir (L "c.pdf")]
        [file (L "a.jpg"), file (L "gone.png"), file (L "c.pdf")]).map report =
      some (2, 0, 1,
        [⟨in_dir downloads_dir (L "a.jpg"), in_dir pics_recent (L "a.jpg"), true⟩,
         ⟨in_dir downloads_dir (L "gone.png"), in_dir pics_recent (L "gone.png"), false⟩,
         ⟨in_dir downloads_dir (L "c.pdf"), in_dir docs_recent (L "c.pdf"), true⟩]) ∧
    ∃ st, relocate disk downloads_dir docs_recent pics_recent vids_recent
        [in_dir downloads_dir (L "a.jpg"), in_dir downloads_dir (L "c.pdf")]
        [file (L "a.jpg"), file (L "gone.png"), file (L "c.pdf")] = some st ∧
      st.errors = st.calls.countP (fun c => !c.ok) ∧
      st.moved = st.calls.countP (fun c => c.ok) ∧
      st.calls.map (fun c => c.src) =
        ([file (L "a.jpg"), file (L "gone.png"), file (L "c.pdf")].filter
          (is_classified docs_recent pics_recent vids_recent)).map
          (fun e => downloads_dir ++ [BACKSLASH] ++ e.cFileName) ∧
      st.moved + st.skipped + st.errors =
        [file (L "a.jpg"), file (L "gone.png"), file (L "c.pdf")].countP
          (fun e => !is_directory e) :=
  ⟨by decide!,
   (relocate_errors disk downloads_dir docs_recent pics_recent vids_recent
      [in_dir downloads_dir (L "a.jpg"), in_dir downloads_dir (L "c.pdf")]
      [file (L "a.jpg"), file (L "gone.png"), file (L "c.pdf")] (by decide!)).1⟩

/-! ## Claims on entries that already exist -/

theorem disk_no_replace (d : List WStr) (a b : WStr)
    (h : disk.GetFileAttributesW d b = true) : (disk.MoveFileW d a b).1 = false := by
  have hb : b ∈ d := by simpa [disk] using h
  simp [disk, hb]

theorem disk_frame (d : List WStr) (a b p : WStr) (h : disk.GetFileAttributesW d p = true)
    (hpa : p ≠ a) : disk.GetFileAttributesW (disk.MoveFileW d a b).2 p = true := by
  have hp : p ∈ d := by simpa [disk] using h
  simp only [disk]
  split_ifs
  · simp only [List.contains_eq_any_beq, List.any_cons, Bool.or_eq_true, beq_iff_eq,
      List.any_eq_true]
    exact Or.inr ⟨p, (List.mem_erase_of_ne hpa).2 hp, rfl⟩
  · simpa using hp

section Keep

variable {σ : Type} (w : Win32 σ) (downloads docsRecent picsRecent vidsRecent : WStr)

/-- With a `MoveFileW` that fails on an existing destination and removes no entry
other than its source, an entry that is not a source of the listing outlives the pass
and is never the destination of a successful call. -/
theorem run_loop_keeps
    (hnr : ∀ s a b, w.GetFileAttributesW s b = true → (w.MoveFileW s a b).1 = false)
    (hframe : ∀ s a b p, w.GetFileAttributesW s p = true → p ≠ a →
      w.GetFileAttributesW (w.MoveFileW s a b).2 p = true) (p : WStr) :
    ∀ (listing : List FileEntry) (st st1 : LoopState σ),
      run_loop w downloads docsRecent picsRecent vidsRecent st listing = some st1 →
      w.GetFileAttributesW st.fs p = true →
      (∀ e ∈ listing, p ≠ downloads ++ [BACKSLASH] ++ e.cFileName) →
      w.GetFileAttributesW st1.fs p = true ∧
        ∃ new, st1.calls = st.calls ++ new ∧ ∀ c ∈ new, c.ok = true → c.dest ≠ p
  | [], st, st1, h, hp, _ => by
    simp only [run_loop, Option.some.injEq] at h
    subst h
    exact ⟨hp, [], by simp, by simp⟩
  | ffd :: rest, st, st1, h, hp, hsrc => by
    simp only [run_loop] at h
    cases hb : loop_body w downloads docsRecent picsRecent vidsRecent st ffd with
    | none => rw [hb] at h; cases h
    | some st2 =>
      rw [hb] at h
      simp only at h
      have hrest : ∀ e ∈ rest, p ≠ downloads ++ [BACKSLASH] ++ e.cFileName :=
        fun e he => hsrc e (List.mem_cons_of_mem _ he)
      rcases loop_body_cases w downloads docsRecent picsRecent vidsRecent st st2 ffd hb with
        ⟨_, h2⟩ | ⟨_, _, h2⟩ | ⟨_, destDir, src, dest0, dest, _, h3, _, _, h2⟩
      · subst h2
        exact run_loop_keeps hnr hframe p rest _ st1 h hp hrest
      · subst h2
        have ih := run_loop_keeps hnr hframe p rest _ st1 h hp hrest
        exact ih
      · subst h2
        have hps : p ≠ src := by
          rw [(path_join_some h3).1]
          exact hsrc ffd (List.mem_cons_self _ _)
        obtain ⟨hk, new, hnew, hall⟩ :=
          run_loop_keeps hnr hframe p rest _ st1 h (hframe st.fs src dest p hp hps) hrest
        refine ⟨hk, ⟨src, dest, (w.MoveFileW st.fs src dest).1⟩ :: new, ?_, ?_⟩
        · simp only at hnew
          rw [hnew]
          simp
        · intro c hc hok
          rcases List.mem_cons.1 hc with hc1 | hc1
          · subst hc1
            simp only at hok ⊢
            intro hdp
            rw [hdp] at hok
            rw [hnr st.fs src p hp] at hok
            cases hok
          · exact hall c hc1 hok

end Keep

theorem crowded_exists (k : Nat) (h1 : 1 ≤ k) (hk : k ≤ 999) :
    disk.GetFileAttributesW crowded (candidate (in_dir pics_recent (L "a.jpg")) k) = true ∧
      (candidate (in_dir pics_recent (L "a.jpg")) k).length < MAX_PATH := by
  constructor
  · have hmem : candidate (in_dir pics_recent (L "a.jpg")) k ∈ crowded := by
      unfold crowded
      refine List.mem_cons_of_mem _ (List.mem_cons_of_mem _ ?_)
      refine List.mem_map.2 ⟨k - 1, List.mem_range.2 (by omega), ?_⟩
      rw [show k - 1 + 1 = k by omega]
    simpa [disk] using hmem
  · have := @candidate_length (in_dir pics_recent (L "a.jpg")) (by decide) (by decide) k
    have h3 := fmt_d_length_le (show k < 1000 by omega)
    have h4 : (in_dir pics_recent (L "a.jpg")).length = 42 := by decide
    have h5 : MAX_PATH = 260 := rfl
    omega

theorem crowded_free_1000 :
    disk.GetFileAttributesW crowded (candidate (in_dir pics_recent (L "a.jpg")) 1000) = false := by
  have hnot : candidate (in_dir pics_recent (L "a.jpg")) 1000 ∉ crowded := by
    unfold crowded
    simp only [List.mem_cons, List.mem_map, List.mem_range, not_or, not_exists, not_and]
    refine ⟨by decide, by decide, ?_⟩
    intro i hi heq
    exact (@candidate_1000_ne (in_dir pics_recent (L "a.jpg")) (by decide) (by decide) (i + 1)
      (by omega)).1 heq
  simpa [disk] using hnot

theorem crowded_dest_exists :
    disk.GetFileAttributesW crowded (in_dir pics_recent (L "a.jpg")) = true := by
  have hmem : in_dir pics_recent (L "a.jpg") ∈ crowded :=
    List.mem_cons_of_mem _ (List.mem_cons_self _ _)
  simpa [disk] using hmem

theorem relocate_exhausted_report {σ : Type} (w : Win32 σ)
    (downloads docsRecent picsRecent vidsRecent : WStr)
    (fs : σ) (ffd : FileEntry) (destDir src dest : WStr)
    (hnr : ∀ s a b, w.GetFileAttributesW s b = true → (w.MoveFileW s a b).1 = false)
    (hdir : is_directory ffd = false)
    (hd : entry_dest_dir docsRecent picsRecent vidsRecent ffd.cFileName = some destDir)
    (hsrc : path_join downloads ffd.cFileName = some src)
    (hdest : path_join destDir ffd.cFileName = some dest)
    (hex : w.GetFileAttributesW fs dest = true)
    (hall : ∀ k, 1 ≤ k → k ≤ 999 → w.GetFileAttributesW fs (candidate dest k) = true ∧
      (candidate dest k).length < MAX_PATH) :
    (relocate w downloads docsRecent picsRecent vidsRecent fs [ffd]).map report =
      some (0, 0, 1, [⟨src, dest, false⟩]) := by
  have hbody := loop_body_exhausted w downloads docsRecent picsRecent vidsRecent
    (initial_state fs) ffd destDir src dest hnr hdir hd hsrc hdest hex hall
  simp only [relocate, run_loop, hbody, Option.map_some', report]
  simp only [initial_state, zero_add, List.nil_append]

/-- C10, as stated, fails on the code: a file whose desired destination exists is
not always moved to the first free variant. On `crowded` the variants ` (1)` to
` (999)` of `a.jpg` exist and ` (1000)` is free and fits `MAX_PATH`, but the loop stops
at 999, calls `MoveFileW` with the existing destination and counts an error; `a.jpg` is
not moved. -/
theorem relocate_keeps_existing_counterexample :
    disk.GetFileAttributesW crowded (in_dir pics_recent (L "a.jpg")) = true ∧
      candidate (in_dir pics_recent (L "a.jpg")) 1000 = in_dir pics_recent (L "a (1000).jpg") ∧
      (candidate (in_dir pics_recent (L "a.jpg")) 1000).length < MAX_PATH ∧
      disk.GetFileAttributesW crowded (candidate (in_dir pics_recent (L "a.jpg")) 1000) = false ∧
      (relocate disk downloads_dir docs_recent pics_recent vids_recent crowded
        [file (L "a.jpg")]).map report =
        some (0, 0, 1,
          [⟨in_dir downloads_dir (L "a.jpg"), in_dir pics_recent (L "a.jpg"), false⟩]) :=
  ⟨crowded_dest_exists, by decide, by decide, crowded_free_1000,
    relocate_exhausted_report disk downloads_dir docs_recent pics_recent vids_recent
      crowded (file (L "a.jpg")) pics_recent (in_dir downloads_dir (L "a.jpg"))
      (in_dir pics_recent (L "a.jpg")) disk_no_replace (by decide) (by decide) (by decide)
      (by decide) crowded_dest_exists crowded_exists⟩

/-- C10 (amended): with a `MoveFileW` that fails instead of replacing when its
destination exists and that removes no entry other than its source,
(1) the destination of every successful call of the loop did not exist when the call
was made; (2) a file whose desired destination exists, and whose first free candidate
is ` (k)` with `1 ≤ k ≤ 999` and fits `MAX_PATH`, is handed to `MoveFileW` with that
candidate as destination, and the entry at the desired destination is kept;
(3) a file whose desired destination exists, and whose candidates ` (1)` to ` (999)`
all exist and fit `MAX_PATH`, is not moved: `MoveFileW` is called on the existing
destination, fails and is counted in `errors`, and the entry at the desired destination
is kept; (4) after every pass, an entry that existed before it at a path that is not a
source of the listing still exists and was never the destination of a successful
call. -/
theorem relocate_keeps_existing {σ : Type} (w : Win32 σ)
    (downloads docsRecent picsRecent vidsRecent : WStr)
    (hnr : ∀ s a b, w.GetFileAttributesW s b = true → (w.MoveFileW s a b).1 = false)
    (hframe : ∀ s a b p, w.GetFileAttributesW s p = true → p ≠ a →
      w.GetFileAttributesW (w.MoveFileW s a b).2 p = true) :
    (∀ (st st1 : LoopState σ) (ffd : FileEntry) (c : MoveCall),
      loop_body w downloads docsRecent picsRecent vidsRecent st ffd = some st1 →
      st1.calls = st.calls ++ [c] → c.ok = true →
      w.GetFileAttributesW st.fs c.dest = false) ∧
    (∀ (st : LoopState σ) (ffd : FileEntry) (destDir src dest0 : WStr) (k : Nat),
      is_directory ffd = false →
      entry_dest_dir docsRecent picsRecent vidsRecent ffd.cFileName = some destDir →
      path_join downloads ffd.cFileName = some src →
      path_join destDir ffd.cFileName = some dest0 →
      w.GetFileAttributesW st.fs dest0 = true →
      1 ≤ k → k ≤ 999 →
      (∀ j, 1 ≤ j → j < k → w.GetFileAttributesW st.fs (candidate dest0 j) = true) →
      w.GetFileAttributesW st.fs (candidate dest0 k) = false →
      (candidate dest0 k).length < MAX_PATH →
      ∃ st1, loop_body w downloads docsRecent picsRecent vidsRecent st ffd = some st1 ∧
        st1.calls = st.calls ++
          [⟨src, candidate dest0 k, (w.MoveFileW st.fs src (candidate dest0 k)).1⟩] ∧
        (dest0 ≠ src → w.GetFileAttributesW st1.fs dest0 = true)) ∧
    (∀ (st : LoopState σ) (ffd : FileEntry) (destDir src dest0 : WStr),
      is_directory ffd = false →
      entry_dest_dir docsRecent picsRecent vidsRecent ffd.cFileName = some destDir →
      path_join downloads ffd.cFileName = some src →
      path_join destDir ffd.cFileName = some dest0 →
      w.GetFileAttributesW st.fs dest0 = true →
      (∀ k, 1 ≤ k → k ≤ 999 → w.GetFileAttributesW st.fs (candidate dest0 k) = true ∧
        (candidate dest0 k).length < MAX_PATH) →
      loop_body w downloads docsRecent picsRecent vidsRecent st ffd =
          some { st with errors := st.errors + 1, fs := (w.MoveFileW st.fs src dest0).2,
                         calls := st.calls ++ [⟨src, dest0, false⟩] } ∧
        (dest0 ≠ src → w.GetFileAttributesW (w.MoveFileW st.fs src dest0).2 dest0 = true)) ∧
    (∀ (fs : σ) (listing : List FileEntry) (st : LoopState σ),
      relocate w downloads docsRecent picsRecent vidsRecent fs listing = some st →
      ∀ p, w.GetFileAttributesW fs p = true →
        (∀ e ∈ listing, p ≠ downloads ++ [BACKSLASH] ++ e.cFileName) →
        w.GetFileAttributesW st.fs p = true ∧
          ∀ c ∈ st.calls, c.ok = true → c.dest ≠ p) := by
  refine ⟨?_, ?_, ?_, ?_⟩
  · intro st st1 ffd c h hc hok
    obtain ⟨h1, _⟩ := loop_body_call w downloads docsRecent picsRecent vidsRecent st st1 ffd c h hc
    by_contra hex
    have hex1 : w.GetFileAttributesW st.fs c.dest = true := by simpa using hex
    rw [hnr st.fs c.src c.dest hex1] at h1
    rw [h1] at hok
    cases hok
  · intro st ffd destDir src dest0 k hdir hd hsrc hdest0 hex hk1 hk hprev hfree hfit
    obtain ⟨hd0, hlen⟩ := path_join_some hdest0
    have hb : BACKSLASH ∈ dest0 := by
      rw [hd0]
      simp
    have hu := make_unique_dest_of_first_free (w.GetFileAttributesW st.fs) dest0 k hlen hb hex hk1
      hk hprev hfree hfit
    have hbody := loop_body_classified w downloads docsRecent picsRecent vidsRecent st ffd destDir
      src dest0 _ hdir hd hsrc hdest0 hu
    by_cases hok : (w.MoveFileW st.fs src (candidate dest0 k)).1 = true
    · rw [if_pos hok] at hbody
      exact ⟨_, hbody, by simp [hok], fun hne => hframe st.fs src _ dest0 hex hne⟩
    · have hok0 : (w.MoveFileW st.fs src (candidate dest0 k)).1 = false := by simpa using hok
      rw [if_neg hok] at hbody
      exact ⟨_, hbody, by simp [hok0], fun hne => hframe st.fs src _ dest0 hex hne⟩
  · intro st ffd destDir src dest0 hdir hd hsrc hdest0 hex hall
    exact ⟨loop_body_exhausted w downloads docsRecent picsRecent vidsRecent st ffd destDir src
      dest0 hnr hdir hd hsrc hdest0 hex hall, fun hne => hframe st.fs src dest0 dest0 hex hne⟩
  · intro fs listing st hst p hp hsrc
    obtain ⟨hk, new, hnew, hall⟩ := run_loop_keeps w downloads docsRecent picsRecent vidsRecent
      hnr hframe p listing (initial_state fs) st hst hp hsrc
    refine ⟨hk, ?_⟩
    simp only [initial_state, List.nil_append] at hnew
    rw [hnew]
    exact hall

theorem relocate_keeps_existing_witness :
    (relocate disk downloads_dir docs_recent pics_recent vids_recent
        [in_dir downloads_dir (L "a.jpg")] [file (L "a.jpg")]).map (fun st => (report st, st.fs)) =
      some ((1, 0, 0, [⟨in_dir downloads_dir (L "a.jpg"), in_dir pics_recent (L "a.jpg"), true⟩]),
        [in_dir pics_recent (L "a.jpg")]) ∧
    (relocate disk downloads_dir docs_recent pics_recent vids_recent
        [in_dir downloads_dir (L "a.jpg"), in_dir pics_recent (L "a.jpg")]
        [file (L "a.jpg")]).map (fun st => (report st, st.fs)) =
      some ((1, 0, 0,
          [⟨in_dir downloads_dir (L "a.jpg"), in_dir pics_recent (L "a (1).jpg"), true⟩]),
        [in_dir pics_recent (L "a (1).jpg"), in_dir pics_recent (L "a.jpg")]) ∧
    (∃ st, relocate disk downloads_dir docs_recent pics_recent vids_recent
        [in_dir downloads_dir (L "a.jpg"), in_dir pics_recent (L "a.jpg")]
        [file (L "a.jpg")] = some st ∧
      disk.GetFileAttributesW st.fs (in_dir pics_recent (L "a.jpg")) = true ∧
      ∀ c ∈ st.calls, c.ok = true → c.dest ≠ in_dir pics_recent (L "a.jpg")) ∧
    (loop_body disk downloads_dir docs_recent pics_recent vids_recent (initial_state crowded)
        (file (L "a.jpg")) =
      some { initial_state crowded with
        errors := (initial_state crowded).errors + 1,
        fs := (disk.MoveFileW (initial_state crowded).fs (in_dir downloads_dir (L "a.jpg"))
          (in_dir pics_recent (L "a.jpg"))).2,
        calls := (initial_state crowded).calls ++
          [⟨in_dir downloads_dir (L "a.jpg"), in_dir pics_recent (L "a.jpg"), false⟩] }) :=
  ⟨by decide!, by decide!,
   let ⟨st, h⟩ := run_loop_total disk downloads_dir docs_recent pics_recent vids_recent
      [file (L "a.jpg")]
      (initial_state [in_dir downloads_dir (L "a.jpg"), in_dir pics_recent (L "a.jpg")])
      (by decide!)
   ⟨st, h, (relocate_keeps_existing disk downloads_dir docs_recent pics_recent
      vids_recent disk_no_replace disk_frame).2.2.2
      [in_dir downloads_dir (L "a.jpg"), in_dir pics_recent (L "a.jpg")] [file (L "a.jpg")] st h
      (in_dir pics_recent (L "a.jpg")) (by decide) (by
        intro e he
        simp only [List.mem_singleton] at he
        subst he
        decide)⟩,
   ((relocate_keeps_existing disk downloads_dir docs_recent pics_recent
      vids_recent disk_no_replace disk_frame).2.2.1 (initial_state crowded) (file (L "a.jpg"))
      pics_recent (in_dir downloads_dir (L "a.jpg")) (in_dir pics_recent (L "a.jpg"))
      (by decide) (by decide) (by decide) (by decide) crowded_dest_exists crowded_exists).1⟩

/-! ## Long extensions -/

/-- C18: an extension of more than 5 code units is unknown. The copy into the
64-element buffer keeps at least 6 code units of it (63 when it is truncated), more
than any table entry has, so truncation never produces a match. -/
theorem classify_extension_long (s : WStr) (h : 5 < s.length) :
    classify_extension (some s) = none := by
  have hlow : 5 < (to_lower_w (wcsncpy_s_truncate 64 s)).length := by
    simp only [to_lower_w, wcsncpy_s_truncate, List.length_map, List.length_take]
    omega
  have key : ∀ arr, (∀ e ∈ arr, e ∈ images ++ videos ++ docs) →
      scan (to_lower_w (wcsncpy_s_truncate 64 s)) arr = false := by
    intro arr harr
    by_contra hc
    have hmem := scan_eq_true (Bool.eq_true_of_not_eq_false hc)
    have hlen := table_entries_short _ (arrays_in_table _ (harr _ hmem))
    omega
  simp only [classify_extension]
  rw [key images (by intro e he; simp [he]), key videos (by intro e he; simp [he]),
    key docs (by intro e he; simp [he])]
  simp

theorem classify_extension_long_witness :
    5 < padded_jpg.length ∧ wcsncpy_s_truncate 64 padded_jpg ≠ padded_jpg ∧
      classify_extension (some (L ".jpg")) = some (L "Pictures") ∧
      classify_extension (some padded_jpg) = none ∧
      classify_extension (some (L ".jpegx")) = none :=
  ⟨by decide, by decide, by decide, classify_extension_long padded_jpg (by decide),
    classify_extension_long (L ".jpegx") (by decide)⟩

/-! ## Idempotence of `make_unique_dest` -/

theorem make_unique_dest_again (ex : WStr → Bool) (p r : WStr)
    (h : make_unique_dest ex p = some r) : make_unique_dest ex r = some r := by
  rcases make_unique_dest_some ex p r h with hf | he
  · exact make_unique_dest_of_not_exists ex r hf
  · rw [he]
    rw [he] at h
    exact h

/-- C17: `make_unique_dest` is idempotent for a fixed predicate "exists". Applying it
to the path it returned gives that path again: a free path and a free candidate are
returned by the first test, and an existing path returned unchanged (total collision,
no backslash) is searched in the same way again. When the destination and its
candidates fit `MAX_PATH` (`p.length + 6 < MAX_PATH`) a path is returned. -/
theorem make_unique_dest_idempotent (ex : WStr → Bool) (p : WStr) :
    (make_unique_dest ex p).bind (make_unique_dest ex) = make_unique_dest ex p ∧
    (p.length + 6 < MAX_PATH →
      ∃ r, make_unique_dest ex p = some r ∧ make_unique_dest ex r = some r) := by
  constructor
  · cases h : make_unique_dest ex p with
    | none => rfl
    | some r => exact make_unique_dest_again ex p r h
  · intro hlen
    obtain ⟨r, hr⟩ := make_unique_dest_total ex p hlen
    exact ⟨r, hr, make_unique_dest_again ex p r hr⟩

theorem make_unique_dest_idempotent_witness :
    (make_unique_dest two_exist (L "d\\y.txt") = some (L "d\\y.txt") ∧
      make_unique_dest two_exist (L "d\\x.txt") = some (L "d\\x (2).txt") ∧
      make_unique_dest two_exist (L "d\\x (2).txt") = some (L "d\\x (2).txt") ∧
      make_unique_dest all_exist (L "d\\x.txt") = some (L "d\\x.txt") ∧
      make_unique_dest bare_exists (L "x.txt") = some (L "x.txt")) ∧
    (∃ r, make_unique_dest two_exist (L "d\\y.txt") = some r ∧
      make_unique_dest two_exist r = some r) ∧
    (∃ r, make_unique_dest two_exist (L "d\\x.txt") = some r ∧
      make_unique_dest two_exist r = some r) ∧
    (∃ r, make_unique_dest all_exist (L "d\\x.txt") = some r ∧
      make_unique_dest all_exist r = some r) ∧
    (∃ r, make_unique_dest bare_exists (L "x.txt") = some r ∧
      make_unique_dest bare_exists r = some r) :=
  ⟨by decide!,
   (make_unique_dest_idempotent two_exist (L "d\\y.txt")).2 (by decide),
   (make_unique_dest_idempotent two_exist (L "d\\x.txt")).2 (by decide),
   (make_unique_dest_idempotent all_exist (L "d\\x.txt")).2 (by decide),
   (make_unique_dest_idempotent bare_exists (L "x.txt")).2 (by decide)⟩

/-! ## Directory entries -/

theorem run_loop_filter_directories {σ : Type} (w : Win32 σ)
    (downloads docsRecent picsRecent vidsRecent : WStr) :
    ∀ (listing : List FileEntry) (st : LoopState σ),
      run_loop w downloads docsRecent picsRecent vidsRecent st listing =
        run_loop w downloads docsRecent picsRecent vidsRecent st
          (listing.filter (fun e => !is_directory e))
  | [], _ => rfl
  | ffd :: rest, st => by
    by_cases hdir : is_directory ffd = true
    · simp only [List.filter_cons, hdir, Bool.not_true, Bool.false_eq_true, if_false, run_loop,
        loop_body_directory w downloads docsRecent picsRecent vidsRecent st ffd hdir]
      exact run_loop_filter_directories w downloads docsRecent picsRecent vidsRecent rest st
    · have hdir0 : is_directory ffd = false := by simpa using hdir
      simp only [List.filter_cons, hdir0, Bool.not_false, if_true, run_loop]
      cases loop_body w downloads docsRecent picsRecent vidsRecent st ffd with
      | none => rfl
      | some st1 =>
        exact run_loop_filter_directories w downloads docsRecent picsRecent vidsRecent rest st1

/-- C12: an entry flagged as a directory changes nothing. Its iteration returns the
state it was given (counters, file system and `MoveFileW` calls) whatever the two
file-system primitives are, so neither is consulted; and the pass over a listing is
the pass over that listing without its directory entries: same counters, same calls,
same file system, and the same termination when a path does not fit. -/
theorem relocate_ignores_directories {σ : Type} (w : Win32 σ)
    (downloads docsRecent picsRecent vidsRecent : WStr) :
    (∀ (w1 : Win32 σ) (st : LoopState σ) (ffd : FileEntry), is_directory ffd = true →
      loop_body w1 downloads docsRecent picsRecent vidsRecent st ffd = some st) ∧
    (∀ (fs : σ) (listing : List FileEntry),
      relocate w downloads docsRecent picsRecent vidsRecent fs listing =
        relocate w downloads docsRecent picsRecent vidsRecent fs
          (listing.filter (fun e => !is_directory e))) :=
  ⟨fun w1 st ffd h => loop_body_directory w1 downloads docsRecent picsRecent vidsRecent st ffd h,
   fun _ listing =>
    run_loop_filter_directories w downloads docsRecent picsRecent vidsRecent listing _⟩

theorem relocate_ignores_directories_witness :
    [folder (L "."), folder (L ".."), folder (L "photos.jpg"), file (L "a.jpg")].filter
        (fun e => !is_directory e) = [file (L "a.jpg")] ∧
    loop_body disk downloads_dir docs_recent pics_recent vids_recent
        (initial_state [in_dir downloads_dir (L "a.jpg")]) (folder (L "photos.jpg")) =
      some (initial_state [in_dir downloads_dir (L "a.jpg")]) ∧
    relocate disk downloads_dir docs_recent pics_recent vids_recent
        [in_dir downloads_dir (L "a.jpg")]
        [folder (L "."), folder (L ".."), folder (L "photos.jpg"), file (L "a.jpg")] =
      relocate disk downloads_dir docs_recent pics_recent vids_recent
        [in_dir downloads_dir (L "a.jpg")]
        ([folder (L "."), folder (L ".."), folder (L "photos.jpg"), file (L "a.jpg")].filter
          (fun e => !is_directory e)) ∧
    (relocate disk downloads_dir docs_recent pics_recent vids_recent
        [in_dir downloads_dir (L "a.jpg")]
        [folder (L "."), folder (L ".."), folder (L "photos.jpg"), file (L "a.jpg")]).map report =
      some (1, 0, 0,
        [⟨in_dir downloads_dir (L "a.jpg"), in_dir pics_recent (L "a.jpg"), true⟩]) :=
  ⟨by decide,
   (relocate_ignores_directories disk downloads_dir docs_recent pics_recent vids_recent).1 disk
     _ _ (by decide),
   (relocate_ignores_directories disk downloads_dir docs_recent pics_recent vids_recent).2 _ _,
   by decide!⟩

/-! ## Claims on skipped files and on the sequence of moves -/

theorem entry_dest_dir_isSome (docsRecent picsRecent vidsRecent name : WStr) :
    (entry_dest_dir docsRecent picsRecent vidsRecent name).isSome =
      (classify_extension (some (entry_extension name))).isSome := by
  unfold entry_dest_dir
  cases hc : classify_extension (some (entry_extension name)) with
  | none => rfl
  | some category =>
    obtain ⟨hP, hV, hD⟩ := choose_dest_dir_spec docsRecent picsRecent vidsRecent
    rcases classify_extension_range _ _ hc with h | h | h <;> subst h <;> simp [hP, hV, hD]

theorem is_classified_eq (docsRecent picsRecent vidsRecent : WStr) :
    is_classified docsRecent picsRecent vidsRecent = has_known_category := by
  funext e
  simp only [is_classified, has_known_category, entry_dest_dir_isSome]

theorem not_classified_eq (docsRecent picsRecent vidsRecent : WStr) :
    (fun e => !is_directory e && !is_classified docsRecent picsRecent vidsRecent e) =
      is_unknown_file := by
  funext e
  rw [is_classified_eq]
  simp only [has_known_category, is_unknown_file]
  cases is_directory e <;>
    cases classify_extension (some (entry_extension e.cFileName)) <;> rfl

theorem entry_dest_dir_of_unknown (docsRecent picsRecent vidsRecent : WStr) (ffd : FileEntry)
    (h : is_unknown_file ffd = true) :
    is_directory ffd = false ∧
      entry_dest_dir docsRecent picsRecent vidsRecent ffd.cFileName = none := by
  simp only [is_unknown_file, Bool.and_eq_true, Bool.not_eq_true', Option.isNone_iff_eq_none]
    at h
  refine ⟨h.1, ?_⟩
  unfold entry_dest_dir
  rw [h.2]

theorem entry_extension_no_dot (name : WStr) (h : DOT ∉ name) : entry_extension name = L "" := by
  unfold entry_extension
  rw [wcsrchr_none h]

theorem entry_extension_last_dot (a t : WStr) (h : DOT ∉ t) :
    entry_extension (a ++ DOT :: t) = DOT :: t := by
  unfold entry_extension
  rw [wcsrchr_append a t h]
  simp

theorem in_dir_injective (dir a b : WStr) (h : dir ++ [BACKSLASH] ++ a = dir ++ [BACKSLASH] ++ b) :
    a = b := by
  simpa using h

/-- C11 (defect of the code): in the listing `long_name`, `b.xyz` the file `b.xyz`
has an unknown extension, but it is never counted: the destination path of
`long_name`, before it in the listing, has 267 code units, `path_join` formats it by
`swprintf_s` into `dest[MAX_PATH]` without a check, the process is terminated there and
the pass produces no count of skipped files. -/
theorem relocate_skipped_overflow :
    is_unknown_file (file (L "b.xyz")) = true ∧
      [file long_name, file (L "b.xyz")].countP is_unknown_file = 1 ∧
      (relocate disk downloads_dir docs_recent pics_recent vids_recent
        [in_dir downloads_dir long_name, in_dir downloads_dir (L "b.xyz")]
        [file long_name, file (L "b.xyz")]).map report = none := by
  decide!

/-- Unknown files where the paths can be formatted: when every entry of a listing
satisfies `entry_fits` (enough for every path the loop formats to fit `MAX_PATH`), the
pass runs to its end, `skipped` is the number of non-directory entries
whose extension is unknown, and no `MoveFileW` call has such an entry as its source.
In any state an unknown file adds one to `skipped` and changes nothing else. The
extension is the part of the name from its last `.` on: a name without `.` and a name
that ends in `.` are unknown. -/
theorem relocate_skipped {σ : Type} (w : Win32 σ)
    (downloads docsRecent picsRecent vidsRecent : WStr) (fs : σ) (listing : List FileEntry)
    (hfit : ∀ e ∈ listing, entry_fits downloads docsRecent picsRecent vidsRecent e = true) :
    (∃ st, relocate w downloads docsRecent picsRecent vidsRecent fs listing = some st ∧
      st.skipped = listing.countP is_unknown_file ∧
      ∀ e ∈ listing, is_unknown_file e = true →
        downloads ++ [BACKSLASH] ++ e.cFileName ∉ st.calls.map (fun c => c.src)) ∧
    (∀ (st : LoopState σ) (ffd : FileEntry), is_unknown_file ffd = true →
      loop_body w downloads docsRecent picsRecent vidsRecent st ffd =
        some { st with skipped := st.skipped + 1 }) ∧
    (∀ a t : WStr, DOT ∉ t → entry_extension (a ++ DOT :: t) = DOT :: t) ∧
    (∀ name : WStr, DOT ∉ name → classify_extension (some (entry_extension name)) = none) ∧
    (∀ name : WStr, classify_extension (some (entry_extension (name ++ [DOT]))) = none) := by
  refine ⟨?_, ?_, entry_extension_last_dot, ?_, ?_⟩
  · obtain ⟨st, hst⟩ := run_loop_total w downloads docsRecent picsRecent vidsRecent listing
      (initial_state fs) hfit
    obtain ⟨new, hc, _, _, hs, hsrc, _⟩ :=
      run_loop_summary w downloads docsRecent picsRecent vidsRecent listing _ st hst
    simp only [initial_state, List.nil_append, zero_add] at hc hs
    refine ⟨st, hst, ?_, ?_⟩
    · rw [hs, not_classified_eq]
    · intro e _ hu hmem
      rw [hc, hsrc, List.mem_map] at hmem
      obtain ⟨e1, he1, heq⟩ := hmem
      have hname := in_dir_injective downloads _ _ heq
      have hcl := (List.mem_filter.1 he1).2
      obtain ⟨_, hnone⟩ := entry_dest_dir_of_unknown docsRecent picsRecent vidsRecent e hu
      simp only [is_classified, hname, hnone, Option.isSome_none, Bool.and_false,
        Bool.false_eq_true] at hcl
  · intro st ffd hu
    obtain ⟨hdir, hnone⟩ := entry_dest_dir_of_unknown docsRecent picsRecent vidsRecent ffd hu
    exact loop_body_unknown w downloads docsRecent picsRecent vidsRecent st ffd hdir hnone
  · intro name h
    rw [entry_extension_no_dot name h]
    rfl
  · intro name
    rw [entry_extension_last_dot name [] (by simp)]
    rfl

theorem relocate_skipped_witness :
    (relocate disk downloads_dir docs_recent pics_recent vids_recent
        [in_dir downloads_dir (L "a.exe.pdf")]
        [file (L "README"), file (L "notes."), file (L "a.pdf.exe"), file (L "a.exe.pdf"),
          folder (L "old.zip")]).map report =
      some (1, 3, 0,
        [⟨in_dir downloads_dir (L "a.exe.pdf"), in_dir docs_recent (L "a.exe.pdf"), true⟩]) ∧
    [file (L "README"), file (L "notes."), file (L "a.pdf.exe"), file (L "a.exe.pdf"),
        folder (L "old.zip")].countP is_unknown_file = 3 ∧
    ∃ st, relocate disk downloads_dir docs_recent pics_recent vids_recent
        [in_dir downloads_dir (L "a.exe.pdf")]
        [file (L "README"), file (L "notes."), file (L "a.pdf.exe"), file (L "a.exe.pdf"),
          folder (L "old.zip")] = some st ∧
      st.skipped =
        [file (L "README"), file (L "notes."), file (L "a.pdf.exe"), file (L "a.exe.pdf"),
          folder (L "old.zip")].countP is_unknown_file ∧
      ∀ e ∈ [file (L "README"), file (L "notes."), file (L "a.pdf.exe"), file (L "a.exe.pdf"),
          folder (L "old.zip")], is_unknown_file e = true →
        downloads_dir ++ [BACKSLASH] ++ e.cFileName ∉ st.calls.map (fun c => c.src) :=
  ⟨by decide!, by decide,
   (relocate_skipped disk downloads_dir docs_recent pics_recent vids_recent
      [in_dir downloads_dir (L "a.exe.pdf")]
      [file (L "README"), file (L "notes."), file (L "a.pdf.exe"), file (L "a.exe.pdf"),
        folder (L "old.zip")] (by decide!)).1⟩

/-- C13 (defect of the code): in the listing `a.jpg`, `long_name` both entries are
files with a known category, and `a.jpg` is moved; but `MoveFileW` is never called for
`long_name`: its destination path has 267 code units, `path_join` formats it by
`swprintf_s` into `dest[MAX_PATH]` without a check, and the process is terminated
there. -/
theorem relocate_calls_overflow :
    [file (L "a.jpg"), file long_name].filter has_known_category =
        [file (L "a.jpg"), file long_name] ∧
      (relocate disk downloads_dir docs_recent pics_recent vids_recent
        [in_dir downloads_dir (L "a.jpg"), in_dir downloads_dir long_name]
        [file (L "a.jpg")]).map report =
        some (1, 0, 0,
          [⟨in_dir downloads_dir (L "a.jpg"), in_dir pics_recent (L "a.jpg"), true⟩]) ∧
      (relocate disk downloads_dir docs_recent pics_recent vids_recent
        [in_dir downloads_dir (L "a.jpg"), in_dir downloads_dir long_name]
        [file (L "a.jpg"), file long_name]).map report = none := by
  decide!

/-- The sequence of calls: when every entry of a listing satisfies `entry_fits`
(enough for every path the loop formats to fit `MAX_PATH`), the pass runs to its end.
After a pass that ran to its end the sources of
the `MoveFileW` calls, in call order, are the paths in Downloads of the files with a
known category, in listing order: one call for each of them and none for any other
entry, so no entry is retried and none is moved twice; and the number of calls is
`moved + errors`. An iteration makes at most one call. -/
theorem relocate_calls {σ : Type} (w : Win32 σ)
    (downloads docsRecent picsRecent vidsRecent : WStr) (fs : σ) (listing : List FileEntry) :
    ((∀ e ∈ listing, entry_fits downloads docsRecent picsRecent vidsRecent e = true) →
      ∃ st, relocate w downloads docsRecent picsRecent vidsRecent fs listing = some st) ∧
    (∀ st, relocate w downloads docsRecent picsRecent vidsRecent fs listing = some st →
      st.calls.map (fun c => c.src) =
        (listing.filter has_known_category).map
          (fun e => downloads ++ [BACKSLASH] ++ e.cFileName) ∧
      st.calls.length = listing.countP has_known_category ∧
      st.calls.length = st.moved + st.errors) ∧
    (∀ (st st1 : LoopState σ) (ffd : FileEntry),
      loop_body w downloads docsRecent picsRecent vidsRecent st ffd = some st1 →
      (has_known_category ffd = false ∧ st1.calls = st.calls) ∨
      (has_known_category ffd = true ∧
        ∃ dest ok, st1.calls = st.calls ++
          [⟨downloads ++ [BACKSLASH] ++ ffd.cFileName, dest, ok⟩])) := by
  refine ⟨fun hfit => run_loop_total w downloads docsRecent picsRecent vidsRecent listing
    (initial_state fs) hfit, ?_, ?_⟩
  · intro st hst
    obtain ⟨new, hc, hm, he, _, hsrc, _⟩ :=
      run_loop_summary w downloads docsRecent picsRecent vidsRecent listing _ st hst
    simp only [initial_state, List.nil_append, zero_add] at hc hm he
    rw [is_classified_eq] at hsrc
    have hlen : st.calls.length = listing.countP has_known_category := by
      have := congrArg List.length hsrc
      rw [← hc] at this
      simpa [List.countP_eq_length_filter] using this
    refine ⟨by rw [hc, hsrc], hlen, ?_⟩
    rw [hm, he, hc]
    have hsplit : ∀ l : List MoveCall,
        l.length = l.countP (fun c => c.ok) + l.countP (fun c => !c.ok) := by
      intro l
      induction l with
      | nil => rfl
      | cons c t ih =>
        simp only [List.length_cons, List.countP_cons, ih]
        cases c.ok <;> simp <;> omega
    exact hsplit new
  · intro st st1 ffd h
    rcases loop_body_cases w downloads docsRecent picsRecent vidsRecent st st1 ffd h with
      ⟨hdir, h2⟩ | ⟨hdir, hd, h2⟩ | ⟨hdir, destDir, src, dest0, dest, hd, h3, _, _, h2⟩
    · subst h2
      exact Or.inl ⟨by simp [has_known_category, hdir], rfl⟩
    · subst h2
      refine Or.inl ⟨?_, rfl⟩
      rw [← is_classified_eq docsRecent picsRecent vidsRecent]
      simp [is_classified, hd]
    · subst h2
      refine Or.inr ⟨?_, dest, (w.MoveFileW st.fs src dest).1, ?_⟩
      · rw [← is_classified_eq docsRecent picsRecent vidsRecent]
        simp [is_classified, hd, hdir]
      · rw [(path_join_some h3).1]

theorem relocate_calls_witness :
    (relocate disk downloads_dir docs_recent pics_recent vids_recent
        [in_dir downloads_dir (L "a.jpg"), in_dir downloads_dir (L "c.pdf")]
        [folder (L "m.mp4"), file (L "a.jpg"), file (L "gone.png"), file (L "b.xyz"),
          file (L "c.pdf")]).map report =
      some (2, 1, 1,
        [⟨in_dir downloads_dir (L "a.jpg"), in_dir pics_recent (L "a.jpg"), true⟩,
         ⟨in_dir downloads_dir (L "gone.png"), in_dir pics_recent (L "gone.png"), false⟩,
         ⟨in_dir downloads_dir (L "c.pdf"), in_dir docs_recent (L "c.pdf"), true⟩]) ∧
    [folder (L "m.mp4"), file (L "a.jpg"), file (L "gone.png"), file (L "b.xyz"),
        file (L "c.pdf")].filter has_known_category =
      [file (L "a.jpg"), file (L "gone.png"), file (L "c.pdf")] ∧
    ∃ st, relocate disk downloads_dir docs_recent pics_recent vids_recent
        [in_dir downloads_dir (L "a.jpg"), in_dir downloads_dir (L "c.pdf")]
        [folder (L "m.mp4"), file (L "a.jpg"), file (L "gone.png"), file (L "b.xyz"),
          file (L "c.pdf")] = some st ∧
      st.calls.map (fun c => c.src) =
        ([folder (L "m.mp4"), file (L "a.jpg"), file (L "gone.png"), file (L "b.xyz"),
          file (L "c.pdf")].filter has_known_category).map
          (fun e => downloads_dir ++ [BACKSLASH] ++ e.cFileName) ∧
      st.calls.length =
        [folder (L "m.mp4"), file (L "a.jpg"), file (L "gone.png"), file (L "b.xyz"),
          file (L "c.pdf")].countP has_known_category ∧
      st.calls.length = st.moved + st.errors :=
  ⟨by decide!, by decide,
   let ⟨st, hst⟩ := (relocate_calls disk downloads_dir docs_recent pics_recent vids_recent
      [in_dir downloads_dir (L "a.jpg"), in_dir downloads_dir (L "c.pdf")]
      [folder (L "m.mp4"), file (L "a.jpg"), file (L "gone.png"), file (L "b.xyz"),
        file (L "c.pdf")]).1 (by decide!)
   ⟨st, hst, (relocate_calls disk downloads_dir docs_recent pics_recent vids_recent
      [in_dir downloads_dir (L "a.jpg"), in_dir downloads_dir (L "c.pdf")]
      [folder (L "m.mp4"), file (L "a.jpg"), file (L "gone.png"), file (L "b.xyz"),
        file (L "c.pdf")]).2.1 st hst⟩⟩

/-! ## Claims on the parts of a candidate -/

theorem after_last_append (c : Nat) (a b : WStr) (hb : c ∉ b) :
    after_last c (a ++ c :: b) = b := by
  unfold after_last
  rw [List.reverse_append, List.reverse_cons, List.append_assoc,
    List.takeWhile_append_of_pos (by
      intro x hx
      have hxb : x ∈ b := List.mem_reverse.1 hx
      simpa using fun h : x = c => hb (h ▸ hxb))]
  simp

theorem before_last_append (c : Nat) (a b : WStr) (hb : c ∉ b) :
    before_last c (a ++ c :: b) = a := by
  unfold before_last
  rw [List.reverse_append, List.reverse_cons, List.append_assoc,
    List.dropWhile_append_of_pos (by
      intro x hx
      have hxb : x ∈ b := List.mem_reverse.1 hx
      simpa using fun h : x = c => hb (h ▸ hxb))]
  simp

theorem after_last_not_mem (c : Nat) (s : WStr) (h : c ∉ s) : after_last c s = s := by
  unfold after_last
  rw [List.takeWhile_eq_self_iff.2 (by
    intro x hx
    have hxs : x ∈ s := List.mem_reverse.1 hx
    simpa using fun h1 : x = c => h (h1 ▸ hxs))]
  simp

/-- The parts of a path `dir\leaf` whose `leaf` has no backslash. -/
theorem path_parts (dir leaf : WStr) (h : BACKSLASH ∉ leaf) :
    path_dir (dir ++ [BACKSLASH] ++ leaf) = dir ∧
      path_final (dir ++ [BACKSLASH] ++ leaf) = leaf := by
  have e : dir ++ [BACKSLASH] ++ leaf = dir ++ BACKSLASH :: leaf := by simp
  unfold path_dir path_final
  rw [e]
  exact ⟨before_last_append _ _ _ h, after_last_append _ _ _ h⟩

theorem fmt_d_no_dot : ∀ j < 1000, DOT ∉ fmt_d j := by
  decide!

/-- The split `make_unique_dest` computes for a destination that fits its buffer is
the split into directory, base name and extension. -/
theorem split_dest_parts {dest : WStr} {dirLen : Nat} (hlen : dest.length < MAX_PATH)
    (hb : wcsrchr dest BACKSLASH = some dirLen) :
    split_dest dest dirLen = some (path_dir dest, path_base dest, path_ext dest) ∧
      path_final dest = path_base dest ++ path_ext dest ∧
      dest = path_dir dest ++ [BACKSLASH] ++ path_final dest ∧
      BACKSLASH ∉ path_final dest ∧
      (path_ext dest = [] → DOT ∉ path_final dest) ∧
      (path_ext dest ≠ [] → ∃ t, path_ext dest = DOT :: t ∧ DOT ∉ t) := by
  obtain ⟨dir, base, ext, hs, _, _, hd, hnb, hext, hnodot⟩ := split_dest_fits hlen hb
  have hd1 : dest = dir ++ [BACKSLASH] ++ (base ++ ext) := by
    rw [hd]; simp
  obtain ⟨hdir, hfinal⟩ := path_parts dir (base ++ ext) hnb
  rw [← hd1] at hdir hfinal
  have hbe : path_base dest = base ∧ path_ext dest = ext := by
    unfold path_base path_ext
    rw [hfinal]
    rcases hext with h0 | ⟨t, ht, hdt⟩
    · subst h0
      have hnd := hnodot rfl
      simp [hnd]
    · subst ht
      have hmem : DOT ∈ base ++ DOT :: t := by simp
      rw [if_pos hmem, if_pos hmem, before_last_append _ _ _ hdt, after_last_append _ _ _ hdt]
      exact ⟨rfl, rfl⟩
  rw [hdir, hbe.1, hbe.2, hfinal]
  refine ⟨hs, rfl, hd1, hnb, ?_, ?_⟩
  · intro h0
    subst h0
    simpa using hnodot rfl
  · intro hne
    rcases hext with h0 | h1
    · exact absurd h0 hne
    · exact h1

theorem candidate_eq_spec {dest : WStr} (hlen : dest.length < MAX_PATH)
    (hb : BACKSLASH ∈ dest) (i : Nat) : candidate dest i = spec_candidate dest i := by
  obtain ⟨dirLen, hw⟩ := mem_of_wcsrchr_ne_none hb
  obtain ⟨hs, _⟩ := split_dest_parts hlen hw
  rw [candidate_eq hw hs]
  rfl

/-- The path `make_unique_dest` returns for a destination with a backslash that fits
its buffer: the destination itself or one of its candidates ` (1)` .. ` (999)`. -/
theorem make_unique_dest_result {ex : WStr → Bool} {dest r : WStr}
    (hlen : dest.length < MAX_PATH) (hb : BACKSLASH ∈ dest)
    (h : make_unique_dest ex dest = some r) :
    r = dest ∨ ∃ i, 1 ≤ i ∧ i ≤ 999 ∧ r = candidate dest i ∧ ex r = false := by
  by_cases hex : ex dest = true
  · obtain ⟨dirLen, hw⟩ := mem_of_wcsrchr_ne_none hb
    obtain ⟨dir, base, ext, hs, _⟩ := split_dest_fits hlen hw
    rw [make_unique_dest_eq hex hw hs] at h
    rcases try_suffixes_some ex dest dir base ext 999 1 r h with ⟨hf, j, h1, h2, hr⟩ | hr
    · exact Or.inr ⟨j, h1, by omega, by rw [candidate_eq hw hs]; exact hr, hf⟩
    · exact Or.inl hr
  · have hex0 : ex dest = false := by simpa using hex
    rw [make_unique_dest_of_not_exists ex dest hex0] at h
    exact Or.inl (Option.some.inj h).symm

/-- C14: for a desired path that fits its buffer and has a backslash, the path is
split at its last backslash into directory and final component and the final
component at its last `.` into base name and extension; the candidate `i` of
`make_unique_dest` is directory, backslash, base name, ` (i)`, extension; the path
returned is the desired path or one of these candidates, the first free one when it
fits. The final component has no backslash, so a `.` of the directory is never the
split point; without a `.` in the final component the extension is empty and the
suffix comes last; with several, the extension starts at the last one. -/
theorem make_unique_dest_candidates (ex : WStr → Bool) (dest : WStr)
    (hlen : dest.length < MAX_PATH) (hb : BACKSLASH ∈ dest) :
    (dest = path_dir dest ++ [BACKSLASH] ++ path_final dest ∧ BACKSLASH ∉ path_final dest ∧
      path_final dest = path_base dest ++ path_ext dest) ∧
    (∀ i, candidate dest i = spec_candidate dest i) ∧
    (∀ r, make_unique_dest ex dest = some r →
      r = dest ∨ ∃ i, 1 ≤ i ∧ i ≤ 999 ∧ r = spec_candidate dest i) ∧
    (ex dest = true → ∀ k, 1 ≤ k → k ≤ 999 →
      (∀ j, 1 ≤ j → j < k → ex (spec_candidate dest j) = true) →
      ex (spec_candidate dest k) = false → (spec_candidate dest k).length < MAX_PATH →
      make_unique_dest ex dest = some (spec_candidate dest k)) ∧
    (DOT ∉ path_final dest →
      path_ext dest = [] ∧ ∀ i, spec_candidate dest i = dest ++ L " (" ++ fmt_d i ++ L ")") ∧
    (∀ a t, path_final dest = a ++ DOT :: t → DOT ∉ t →
      path_base dest = a ∧ path_ext dest = DOT :: t) := by
  obtain ⟨dirLen, hw⟩ := mem_of_wcsrchr_ne_none hb
  obtain ⟨_, hfin, hd, hnb, _, _⟩ := split_dest_parts hlen hw
  refine ⟨⟨hd, hnb, hfin⟩, candidate_eq_spec hlen hb, ?_, ?_, ?_, ?_⟩
  · intro r h
    rcases make_unique_dest_result hlen hb h with h1 | ⟨i, h1, h2, h3, _⟩
    · exact Or.inl h1
    · exact Or.inr ⟨i, h1, h2, by rw [h3, candidate_eq_spec hlen hb]⟩
  · intro hex k hk1 hk hprev hfree hfit
    simp only [← candidate_eq_spec hlen hb] at hprev hfree hfit ⊢
    exact make_unique_dest_of_first_free ex dest k hlen hb hex hk1 hk hprev hfree hfit
  · intro hnd
    have he : path_ext dest = [] := by simp [path_ext, hnd]
    have hbase : path_base dest = path_final dest := by simp [path_base, hnd]
    refine ⟨he, fun i => ?_⟩
    unfold spec_candidate
    rw [he, hbase, List.append_nil]
    conv_rhs => rw [hd]
  · intro a t hat hdt
    have hmem : DOT ∈ path_final dest := by rw [hat]; simp
    simp only [path_base, path_ext, if_pos hmem]
    rw [hat, before_last_append _ _ _ hdt, after_last_append _ _ _ hdt]
    exact ⟨rfl, rfl⟩

theorem make_unique_dest_candidates_witness :
    (candidate (L "d.x\\file") 1 = L "d.x\\file (1)" ∧
      make_unique_dest (exists_only (L "d.x\\file")) (L "d.x\\file") =
        some (L "d.x\\file (1)") ∧
      candidate (L "d\\a.tar.gz") 1 = L "d\\a.tar (1).gz" ∧
      make_unique_dest (exists_only (L "d\\a.tar.gz")) (L "d\\a.tar.gz") =
        some (L "d\\a.tar (1).gz") ∧
      path_dir (L "c\\d.x\\a.tar.gz") = L "c\\d.x" ∧
      path_base (L "c\\d.x\\a.tar.gz") = L "a.tar" ∧
      path_ext (L "c\\d.x\\a.tar.gz") = L ".gz") ∧
    (∀ i, candidate (L "d\\a.tar.gz") i = spec_candidate (L "d\\a.tar.gz") i) ∧
    (path_ext (L "d.x\\file") = [] ∧
      ∀ i, spec_candidate (L "d.x\\file") i = L "d.x\\file" ++ L " (" ++ fmt_d i ++ L ")") :=
  ⟨by decide,
   (make_unique_dest_candidates (exists_only (L "d\\a.tar.gz")) (L "d\\a.tar.gz") (by decide)
      (by decide)).2.1,
   (make_unique_dest_candidates (exists_only (L "d.x\\file")) (L "d.x\\file") (by decide)
      (by decide)).2.2.2.2.1 (by decide)⟩

/-! ## Claims on what a renamed destination keeps -/

/-- The extension the loop of `wmain` extracts from a file name is the extension of
that name as a path component. -/
theorem entry_extension_eq (leaf : WStr) :
    entry_extension leaf = if DOT ∈ leaf then DOT :: after_last DOT leaf else [] := by
  by_cases h : DOT ∈ leaf
  · obtain ⟨k, hk⟩ := mem_of_wcsrchr_ne_none h
    obtain ⟨_, hsplit, hnot⟩ := wcsrchr_some hk
    have he : entry_extension leaf = DOT :: leaf.drop (k + 1) := by
      unfold entry_extension
      rw [hk]
      exact wcsrchr_drop hk
    have ha : after_last DOT leaf = leaf.drop (k + 1) := by
      conv_lhs => rw [hsplit]
      exact after_last_append _ _ _ hnot
    rw [if_pos h, he, ha]
  · rw [if_neg h, entry_extension_no_dot leaf h]
    rfl

theorem path_ext_eq (p : WStr) : path_ext p = entry_extension (path_final p) := by
  rw [entry_extension_eq]
  rfl

/-- A candidate has the directory and the extension of its destination. -/
theorem candidate_parts {dest : WStr} (hlen : dest.length < MAX_PATH) (hb : BACKSLASH ∈ dest)
    {i : Nat} (hi : i < 1000) :
    path_dir (candidate dest i) = path_dir dest ∧ path_ext (candidate dest i) = path_ext dest := by
  obtain ⟨dirLen, hw⟩ := mem_of_wcsrchr_ne_none hb
  obtain ⟨hs, hfin, _, hnb, he0, he1⟩ := split_dest_parts hlen hw
  have hleaf : candidate dest i = path_dir dest ++ [BACKSLASH] ++
      (path_base dest ++ L " (" ++ fmt_d i ++ L ")" ++ path_ext dest) := by
    rw [candidate_eq hw hs]
    simp [candidate_text]
  have hnb1 : BACKSLASH ∉ path_base dest ∧ BACKSLASH ∉ path_ext dest := by
    rw [hfin] at hnb
    simpa [not_or] using hnb
  have h1 : BACKSLASH ∉ L " (" := by decide
  have h2 : BACKSLASH ∉ L ")" := by decide
  have hnbl : BACKSLASH ∉ path_base dest ++ L " (" ++ fmt_d i ++ L ")" ++ path_ext dest := by
    simp only [List.mem_append, not_or]
    exact ⟨⟨⟨⟨hnb1.1, h1⟩, fmt_d_no_backslash i hi⟩, h2⟩, hnb1.2⟩
  obtain ⟨hdir, hfinal⟩ := path_parts (path_dir dest) _ hnbl
  rw [← hleaf] at hdir hfinal
  refine ⟨hdir, ?_⟩
  have hx : path_ext (candidate dest i) =
      if DOT ∈ path_final (candidate dest i) then
        DOT :: after_last DOT (path_final (candidate dest i)) else [] := rfl
  rw [hx, hfinal]
  by_cases hext : path_ext dest = []
  · have hnd := he0 hext
    rw [hfin, hext, List.append_nil] at hnd
    have d1 : DOT ∉ L " (" := by decide
    have d2 : DOT ∉ L ")" := by decide
    have hno : DOT ∉ path_base dest ++ L " (" ++ fmt_d i ++ L ")" ++ path_ext dest := by
      rw [hext]
      simp only [List.mem_append, not_or, List.append_nil]
      exact ⟨⟨⟨hnd, d1⟩, fmt_d_no_dot i hi⟩, d2⟩
    rw [if_neg hno, hext]
  · obtain ⟨t, ht, hdt⟩ := he1 hext
    rw [ht]
    have hmem : DOT ∈ path_base dest ++ L " (" ++ fmt_d i ++ L ")" ++ DOT :: t := by simp
    rw [if_pos hmem, after_last_append _ _ _ hdt]

/-- C16: for a desired path with a backslash that fits `MAX_PATH`, the path
`make_unique_dest` returns has the directory (up to the last backslash) and the
extension (from the last `.` of the final component, or none) of the desired path, so
`classify_extension` gives its file name the category of the original file name; and
when the candidates fit too (`dest.length + 6 < MAX_PATH`) a path is returned. -/
theorem make_unique_dest_keeps_parts (ex : WStr → Bool) (dest : WStr)
    (hb : BACKSLASH ∈ dest) (hlen : dest.length < MAX_PATH) :
    (∀ r, make_unique_dest ex dest = some r →
      path_dir r = path_dir dest ∧ path_ext r = path_ext dest ∧
      classify_extension (some (entry_extension (path_final r))) =
        classify_extension (some (entry_extension (path_final dest)))) ∧
    (dest.length + 6 < MAX_PATH → ∃ r, make_unique_dest ex dest = some r) := by
  refine ⟨?_, fun h6 => make_unique_dest_total ex dest h6⟩
  intro r h
  have hparts : path_dir r = path_dir dest ∧ path_ext r = path_ext dest := by
    rcases make_unique_dest_result hlen hb h with h1 | ⟨i, _, h2, h3, _⟩
    · rw [h1]
      exact ⟨rfl, rfl⟩
    · rw [h3]
      exact candidate_parts hlen hb (by omega)
  refine ⟨hparts.1, hparts.2, ?_⟩
  rw [← path_ext_eq, ← path_ext_eq, hparts.2]

theorem make_unique_dest_keeps_parts_witness :
    (make_unique_dest two_exist (L "d\\x.txt") = some (L "d\\x (2).txt") ∧
      path_dir (L "d\\x (2).txt") = L "d" ∧ path_ext (L "d\\x (2).txt") = L ".txt" ∧
      classify_extension (some (entry_extension (L "x (2).txt"))) = some (L "Documents")) ∧
    (∀ r, make_unique_dest two_exist (L "d\\x.txt") = some r →
      path_dir r = path_dir (L "d\\x.txt") ∧ path_ext r = path_ext (L "d\\x.txt") ∧
      classify_extension (some (entry_extension (path_final r))) =
        classify_extension (some (entry_extension (path_final (L "d\\x.txt"))))) ∧
    (∃ r, make_unique_dest two_exist (L "d\\x.txt") = some r) :=
  ⟨by decide,
   (make_unique_dest_keeps_parts two_exist (L "d\\x.txt") (by decide) (by decide)).1,
   (make_unique_dest_keeps_parts two_exist (L "d\\x.txt") (by decide) (by decide)).2
     (by decide)⟩

/-! ## Claims on the setup of `wmain` -/

theorem get_known_folder_none {σ : Type} (h : Host σ) (id : KnownFolder)
    (hid : h.SHGetKnownFolderPath id = none) : get_known_folder h id = none := by
  simp [get_known_folder, hid]

/-- When a known folder cannot be resolved `wmain` returns 1 in the state it started in. -/
theorem wmain_folder_failure {σ : Type} (h : Host σ) (fs : σ)
    (hid : ∃ id, h.SHGetKnownFolderPath id = none) :
    wmain h fs = some (1, initial_state fs) := by
  obtain ⟨id, hid⟩ := hid
  have hg := get_known_folder_none h id hid
  unfold wmain
  split
  · rfl
  · cases h1 : get_known_folder h KnownFolder.Downloads with
    | none => rfl
    | some downloads =>
      cases h2 : get_known_folder h KnownFolder.Documents with
      | none => rfl
      | some documents =>
        cases h3 : get_known_folder h KnownFolder.Pictures with
        | none => rfl
        | some pictures =>
          cases h4 : get_known_folder h KnownFolder.Videos with
          | none => rfl
          | some videos =>
            cases id
            · rw [h1] at hg; cases hg
            · rw [h2] at hg; cases hg
            · rw [h3] at hg; cases hg
            · rw [h4] at hg; cases hg

/-- When the folders resolve, the four paths `wmain` formats fit `MAX_PATH` and
`FindFirstFileW` fails, `wmain` returns 1 after its three `ensure_dir` calls. -/
theorem wmain_listing_failure {σ : Type} (h : Host σ) (fs : σ)
    (downloads documents pictures videos docsRecent picsRecent vidsRecent searchPattern : WStr)
    (hco : h.CoInitializeEx = true)
    (h1 : get_known_folder h KnownFolder.Downloads = some downloads)
    (h2 : get_known_folder h KnownFolder.Documents = some documents)
    (h3 : get_known_folder h KnownFolder.Pictures = some pictures)
    (h4 : get_known_folder h KnownFolder.Videos = some videos)
    (h5 : path_join documents (L "Recent Downloads") = some docsRecent)
    (h6 : path_join pictures (L "Recent Downloads") = some picsRecent)
    (h7 : path_join videos (L "Recent Downloads") = some vidsRecent)
    (h8 : path_join downloads (L "*") = some searchPattern)
    (h9 : h.FindFirstFileW
      (ensure_dir h (ensure_dir h (ensure_dir h fs docsRecent) picsRecent) vidsRecent)
      searchPattern = none) :
    wmain h fs = some (1, initial_state
      (ensure_dir h (ensure_dir h (ensure_dir h fs docsRecent) picsRecent) vidsRecent)) := by
  unfold wmain
  simp only [hco, Bool.not_true, Bool.false_eq_true, if_false, h1, h2, h3, h4, h5, h6, h7, h8, h9]

/-- Whenever a known folder cannot be resolved or no `FindFirstFileW` call succeeds, a
run of `wmain` that returns returns 1, with no `MoveFileW` call made. -/
theorem wmain_failure_returns_1 {σ : Type} (h : Host σ) (fs : σ)
    (hfail : (∃ id, h.SHGetKnownFolderPath id = none) ∨ ∀ s p, h.FindFirstFileW s p = none)
    (r : Nat × LoopState σ) (hr : wmain h fs = some r) :
    r.1 = 1 ∧ r.2.calls = [] ∧ r.2.moved = 0 ∧ r.2.skipped = 0 ∧ r.2.errors = 0 := by
  have key : ∃ s, r = (1, initial_state s) := by
    rcases hfail with hid | hlist
    · rw [wmain_folder_failure h fs hid] at hr
      exact ⟨fs, (Option.some.inj hr).symm⟩
    · unfold wmain at hr
      split at hr
      · exact ⟨fs, (Option.some.inj hr).symm⟩
      · split at hr
        · exact ⟨fs, (Option.some.inj hr).symm⟩
        · split at hr
          · exact ⟨fs, (Option.some.inj hr).symm⟩
          · split at hr
            · exact ⟨fs, (Option.some.inj hr).symm⟩
            · split at hr
              · exact ⟨fs, (Option.some.inj hr).symm⟩
              · split at hr
                · cases hr
                · split at hr
                  · cases hr
                  · split at hr
                    · cases hr
                    · simp only at hr
                      split at hr
                      · cases hr
                      · rw [hlist] at hr
                        simp only at hr
                        exact ⟨_, (Option.some.inj hr).symm⟩
  obtain ⟨s, hs⟩ := key
  subst hs
  exact ⟨rfl, rfl, rfl, rfl, rfl⟩

/-- Whenever a known folder cannot be resolved or no `FindFirstFileW` call succeeds, a
run of `wmain` is the same whatever `MoveFileW` does: the call is never made. -/
theorem wmain_failure_ignores_MoveFileW {σ : Type} (h : Host σ) (fs : σ)
    (hfail : (∃ id, h.SHGetKnownFolderPath id = none) ∨ ∀ s p, h.FindFirstFileW s p = none)
    (mv : σ → WStr → WStr → Bool × σ) :
    wmain { h with MoveFileW := mv } fs = wmain h fs := by
  rcases hfail with hid | hlist
  · rw [wmain_folder_failure h fs hid, wmain_folder_failure { h with MoveFileW := mv } fs hid]
  · simp only [wmain, get_known_folder, ensure_dir, hlist]

/-- C15: if resolving any one of the four known folders fails, `wmain` returns 1 and
leaves the file system as it found it, whatever the other folders are. If the four
folders resolve and the `FindFirstFileW` call that `wmain` makes on the search pattern
of Downloads fails, `wmain` returns 1 after its three `ensure_dir` calls. Whenever a
folder cannot be resolved or Downloads cannot be listed, `wmain` does not return 0, a
run that returns returns 1 with all counters 0 and no `MoveFileW` call, and the run is
the same whatever `MoveFileW` does. -/
theorem wmain_setup_failure {σ : Type} (h : Host σ) (fs : σ) :
    ((∃ id, h.SHGetKnownFolderPath id = none) → wmain h fs = some (1, initial_state fs)) ∧
    (∀ downloads documents pictures videos docsRecent picsRecent vidsRecent searchPattern,
      h.CoInitializeEx = true →
      get_known_folder h KnownFolder.Downloads = some downloads →
      get_known_folder h KnownFolder.Documents = some documents →
      get_known_folder h KnownFolder.Pictures = some pictures →
      get_known_folder h KnownFolder.Videos = some videos →
      path_join documents (L "Recent Downloads") = some docsRecent →
      path_join pictures (L "Recent Downloads") = some picsRecent →
      path_join videos (L "Recent Downloads") = some vidsRecent →
      path_join downloads (L "*") = some searchPattern →
      h.FindFirstFileW
        (ensure_dir h (ensure_dir h (ensure_dir h fs docsRecent) picsRecent) vidsRecent)
        searchPattern = none →
      wmain h fs = some (1, initial_state
        (ensure_dir h (ensure_dir h (ensure_dir h fs docsRecent) picsRecent) vidsRecent))) ∧
    (((∃ id, h.SHGetKnownFolderPath id = none) ∨ ∀ s p, h.FindFirstFileW s p = none) →
      (wmain h fs).map Prod.fst ≠ some 0 ∧
      (∀ r, wmain h fs = some r →
        r.1 = 1 ∧ r.2.calls = [] ∧ r.2.moved = 0 ∧ r.2.skipped = 0 ∧ r.2.errors = 0) ∧
      (∀ mv, wmain { h with MoveFileW := mv } fs = wmain h fs)) :=
  ⟨wmain_folder_failure h fs,
   fun downloads documents pictures videos docsRecent picsRecent vidsRecent searchPattern =>
     wmain_listing_failure h fs downloads documents pictures videos docsRecent picsRecent
       vidsRecent searchPattern,
   fun hfail =>
     ⟨fun h0 => by
        cases hr : wmain h fs with
        | none => rw [hr] at h0; cases h0
        | some r =>
          rw [hr] at h0
          have h1 := (wmain_failure_returns_1 h fs hfail r hr).1
          simp only [Option.map_some', Option.some.injEq] at h0
          omega,
      fun r hr => wmain_failure_returns_1 h fs hfail r hr,
      fun mv => wmain_failure_ignores_MoveFileW h fs hfail mv⟩⟩

theorem wmain_setup_failure_witness :
    ((wmain (host no_pictures (some (file (L "a.jpg"), [])))
        [in_dir downloads_dir (L "a.jpg")]).map outcome = some (1, (0, 0, 0, [])) ∧
      (wmain (host home_folders none) [in_dir downloads_dir (L "a.jpg")]).map outcome =
        some (1, (0, 0, 0, [])) ∧
      (wmain (host home_folders (some (file (L "a.jpg"), [])))
        [in_dir downloads_dir (L "a.jpg")]).map outcome =
        some (0, (1, 0, 0,
          [⟨in_dir downloads_dir (L "a.jpg"), in_dir pics_recent (L "a.jpg"), true⟩]))) ∧
    wmain (host no_pictures (some (file (L "a.jpg"), []))) [in_dir downloads_dir (L "a.jpg")] =
      some (1, initial_state [in_dir downloads_dir (L "a.jpg")]) ∧
    wmain (host home_folders none) [in_dir downloads_dir (L "a.jpg")] =
      some (1, initial_state
        (ensure_dir (host home_folders none)
          (ensure_dir (host home_folders none)
            (ensure_dir (host home_folders none) [in_dir downloads_dir (L "a.jpg")]
              docs_recent) pics_recent) vids_recent)) ∧
    (wmain (host home_folders none) [in_dir downloads_dir (L "a.jpg")]).map Prod.fst ≠ some 0 ∧
    (wmain (host deep_documents none) [in_dir downloads_dir (L "a.jpg")]).map Prod.fst ≠
      some 0 :=
  ⟨⟨by decide!, by decide!, by decide!⟩,
   (wmain_setup_failure (host no_pictures (some (file (L "a.jpg"), [])))
      [in_dir downloads_dir (L "a.jpg")]).1 ⟨KnownFolder.Pictures, rfl⟩,
   (wmain_setup_failure (host home_folders none) [in_dir downloads_dir (L "a.jpg")]).2.1
      (L "C:\\Users\\u\\Downloads") (L "C:\\Users\\u\\Documents")
      (L "C:\\Users\\u\\Pictures") (L "C:\\Users\\u\\Videos") docs_recent pics_recent
      vids_recent (L "C:\\Users\\u\\Downloads\\*") rfl (by decide) (by decide) (by decide)
      (by decide) (by decide) (by decide) (by decide) (by decide) rfl,
   ((wmain_setup_failure (host home_folders none) [in_dir downloads_dir (L "a.jpg")]).2.2
      (Or.inr (fun _ _ => rfl))).1,
   ((wmain_setup_failure (host deep_documents none) [in_dir downloads_dir (L "a.jpg")]).2.2
      (Or.inr (fun _ _ => rfl))).1⟩

end Orderly
